import Mathlib

/-!
# Receipt processor: the points calculation of `main.go`

A shallow embedding of `calculatePoints`, `countAlphaNumeric`, the handlers
`processReceipts` and `getPoints` and the map `receiptsMap` they share, with
the parts of the Go runtime and standard library they rely on (`int`
arithmetic, string slicing, `strconv.Atoi`, `strconv.ParseFloat`, `float64`
multiplication, `math.Ceil`, the conversion `int(f)`).

Conventions.
* A Go string is its sequence of bytes; `len(s)` is the number of bytes and
  `s[i]` is a byte.
* A function that can stop with a run-time panic returns `Option`; `none` is
  the panic.
* Go leaves two things to the implementation: the size of `int` (32 or 64
  bits) and the result of converting a floating-point value to `int` when the
  value does not fit.  Both are fields of `GoImpl`, and the functions that
  depend on them take it as their first argument.
-/

namespace Fetch

/-! ## Strings -/

/-- A Go string: its bytes. -/
abbrev GoString := List Nat

/-- The Go string holding the UTF-8 encoding of a string literal. -/
def goString (s : String) : GoString :=
  (s.toList.flatMap String.utf8EncodeChar).map UInt8.toNat

/-- Go `s[lo:hi]`; panics unless `0 <= lo <= hi <= len(s)`. -/
def goSlice (s : GoString) (lo hi : Int) : Option GoString :=
  if 0 ≤ lo ∧ lo ≤ hi ∧ hi ≤ (s.length : Int) then
    some ((s.take hi.toNat).drop lo.toNat)
  else none

/-! ## The data model (`main.go` lines 14-25) -/

/-- The struct `Item`. -/
structure Item where
  ShortDescription : GoString
  Price : GoString
deriving DecidableEq, Repr

/-- The struct `Receipt`. -/
structure Receipt where
  Retailer : GoString
  PurchaseDate : GoString
  PurchaseTime : GoString
  Items : List Item
  Total : GoString
deriving DecidableEq, Repr

/-! ## float64 -/

/-- A float64 value: NaN, an infinity, or the finite value
`(-1)^neg * m * 2^e` (the sign is kept for zero as well). -/
inductive F64 where
  | nan : F64
  | inf (neg : Bool) : F64
  | fin (neg : Bool) (m : Nat) (e : Int) : F64
deriving DecidableEq, Repr

/-! ## The implementation-defined parts of Go -/

/-- The size of `int`. -/
inductive IntSize where
  | bits32 : IntSize
  | bits64 : IntSize
deriving DecidableEq, Repr

/-- The number of bits of an `int`. -/
def IntSize.bits : IntSize → Nat
  | .bits32 => 32
  | .bits64 => 64

/-- What the language specification leaves to the implementation: the size of
`int`, and the result of `int(f)` for a float64 `f` that is NaN, infinite or
out of the range of `int`. -/
structure GoImpl where
  intSize : IntSize
  convOOR : F64 → Int

/-- The gc compiler on amd64: 64-bit `int`, and every conversion that does not
fit gives the smallest `int`. -/
def amd64 : GoImpl := ⟨.bits64, fun _ => -9223372036854775808⟩

/-- The value of the integer `z` as an `int`: reduced modulo `2^bits` into
`[-2^(bits-1), 2^(bits-1))`. -/
def wrapInt (sz : IntSize) (z : Int) : Int :=
  (z + 2 ^ (sz.bits - 1)) % 2 ^ sz.bits - 2 ^ (sz.bits - 1)

/-- Go `a + b` on `int`. -/
def addInt (sz : IntSize) (a b : Int) : Int := wrapInt sz (a + b)

/-- Go `a * b` on `int`. -/
def mulInt (sz : IntSize) (a b : Int) : Int := wrapInt sz (a * b)

/-! ## strconv.Atoi -/

/-- The two sentinel errors of package `strconv`. -/
inductive NumError where
  | ErrSyntax : NumError
  | ErrRange : NumError
deriving DecidableEq, Repr

/-- The byte is one of `'0'..'9'`. -/
def isDigit (c : Nat) : Bool := 48 ≤ c && c ≤ 57

/-- The digit loop of the fast path of `Atoi`: `n = n*10 + int(ch - '0')`,
failing on a byte that is not a digit. -/
def atoiDigits : List Nat → Int → Option Int
  | [], n => some n
  | ch :: rest, n => if isDigit ch then atoiDigits rest (n * 10 + ((ch : Int) - 48)) else none

/-- The digit loop of `ParseUint(s, 10, bitSize)`: a byte that is not a digit
is a syntax error with value 0; a value above `maxVal` is a range error with
value `maxVal`; whichever comes first is returned. -/
def parseUintLoop (maxVal : Nat) : List Nat → Nat → Nat × Option NumError
  | [], n => (n, none)
  | c :: rest, n =>
    if isDigit c then
      let n1 := n * 10 + (c - 48)
      if maxVal < n1 then (maxVal, some .ErrRange) else parseUintLoop maxVal rest n1
    else (0, some .ErrSyntax)

/-- `strconv.ParseUint(s, 10, 0)`. -/
def ParseUint (sz : IntSize) (s : GoString) : Nat × Option NumError :=
  if s = [] then (0, some .ErrSyntax) else parseUintLoop (2 ^ sz.bits - 1) s 0

/-- `strconv.ParseInt(s, 10, 0)`. -/
def ParseInt (sz : IntSize) (s : GoString) : Int × Option NumError :=
  match s with
  | [] => (0, some .ErrSyntax)
  | c :: t =>
    let neg : Bool := c = 45
    let body := if c = 43 ∨ c = 45 then t else s
    let (un, err) := ParseUint sz body
    if err = some .ErrSyntax then (0, err) else
    let cutoff : Nat := 2 ^ (sz.bits - 1)
    if !neg ∧ cutoff ≤ un then ((cutoff : Int) - 1, some .ErrRange)
    else if neg ∧ cutoff < un then (-(cutoff : Int), some .ErrRange)
    else (if neg then -(un : Int) else un, none)

/-- `strconv.Atoi(s)`: the value and the error.  Strings of 1 to 9 bytes
(32-bit `int`) or 1 to 18 bytes (64-bit) take the fast path, the others go
through `ParseInt`. -/
def Atoi (sz : IntSize) (s : GoString) : Int × Option NumError :=
  let sLen := s.length
  let fast : Nat := match sz with
    | .bits32 => 10
    | .bits64 => 19
  if 0 < sLen ∧ sLen < fast then
    match s with
    | [] => (0, some .ErrSyntax)
    | c :: t =>
      let body := if c = 45 ∨ c = 43 then t else s
      if body.length < 1 then (0, some .ErrSyntax) else
      match atoiDigits body 0 with
      | none => (0, some .ErrSyntax)
      | some n => (if c = 45 then -n else n, none)
  else ParseInt sz s

/-! ## float64 arithmetic -/

/-- The number of binary digits of `n` (0 for 0); the first argument bounds the
number of halvings. -/
def bitLenAux : Nat → Nat → Nat
  | 0, _ => 0
  | fuel + 1, n => if n = 0 then 0 else bitLenAux fuel (n / 2) + 1

/-- The number of binary digits of `n`. -/
def bitLen (n : Nat) : Nat := bitLenAux n n

/-- The integer nearest to `n / d`, a tie going to the even one. -/
def divRoundEven (n d : Nat) : Nat :=
  let q := n / d
  let r := n % d
  if 2 * r < d then q else if d < 2 * r then q + 1 else if q % 2 = 0 then q else q + 1

/-- Numerator and denominator of `(n / d) * 2^(-e)`. -/
def scale2 (n d : Nat) (e : Int) : Nat × Nat :=
  if 0 ≤ e then (n, d * 2 ^ e.toNat) else (n * 2 ^ (-e).toNat, d)

/-- The float64 nearest to `(-1)^neg * n / d` (`d > 0`), by IEEE 754
round-to-nearest-even: 53 significant bits, smallest exponent `2^-1074`, and
infinity when the rounded value reaches `2^1024`.  The second component tells
whether it overflowed. -/
def roundFloat64 (neg : Bool) (n d : Nat) : F64 × Bool :=
  if n = 0 then (.fin neg 0 0, false) else
  let e0 : Int := (bitLen n : Int) - (bitLen d : Int) - 53
  let e1 : Int := if 2 ^ 53 * (scale2 n d e0).2 ≤ (scale2 n d e0).1 then e0 + 1 else e0
  let e : Int := max e1 (-1074)
  let m := divRoundEven (scale2 n d e).1 (scale2 n d e).2
  if 971 < e ∨ (e = 971 ∧ m = 2 ^ 53) then (.inf neg, true) else (.fin neg m e, false)

/-- Go `x * y` on float64. -/
def F64.mul : F64 → F64 → F64
  | .nan, _ => .nan
  | _, .nan => .nan
  | .inf a, .inf b => .inf (a != b)
  | .inf a, .fin b m _ => if m = 0 then .nan else .inf (a != b)
  | .fin a m _, .inf b => if m = 0 then .nan else .inf (a != b)
  | .fin a m1 e1, .fin b m2 e2 =>
    (roundFloat64 (a != b) (scale2 (m1 * m2) 1 (-(e1 + e2))).1 (scale2 (m1 * m2) 1 (-(e1 + e2))).2).1

/-- The float64 constant `0.2`: the float64 nearest to 2/10. -/
def const02 : F64 := (roundFloat64 false 2 10).1

/-- `math.Ceil(x)`: the least integer value not below `x`; NaN, the infinities
and the zeros are returned as they are. -/
def Ceil : F64 → F64
  | .nan => .nan
  | .inf s => .inf s
  | .fin neg m e =>
    if 0 ≤ e then .fin neg m e
    else if neg then .fin true (m / 2 ^ (-e).toNat) 0
    else .fin false ((m + 2 ^ (-e).toNat - 1) / 2 ^ (-e).toNat) 0

/-- The conversion `int(f)`: the fraction is discarded (truncation towards
zero); when the result does not fit an `int`, or `f` is NaN or infinite, the
value is the implementation's. -/
def F64.toInt (impl : GoImpl) (f : F64) : Int :=
  match f with
  | .fin neg m e =>
    let mag : Nat := if 0 ≤ e then m * 2 ^ e.toNat else m / 2 ^ (-e).toNat
    let v : Int := if neg then -(mag : Int) else mag
    if -(2 ^ (impl.intSize.bits - 1) : Int) ≤ v ∧ v < 2 ^ (impl.intSize.bits - 1) then v
    else wrapInt impl.intSize (impl.convOOR f)
  | _ => wrapInt impl.intSize (impl.convOOR f)

/-! ## strconv.ParseFloat -/

/-- The helper `lower(c)` of package `strconv`, `c | ('x' - 'X')`: bit 5 of
`c` is set. -/
def lower (c : Nat) : Nat := if (c / 32) % 2 = 0 then c + 32 else c

/-- The length of the longest common start of `s` and `pre`, `s` read with
`'A'..'Z'` as lower case. -/
def commonPrefixLenIgnoreCase : GoString → GoString → Nat
  | c :: s, p :: pre =>
    if (if 65 ≤ c ∧ c ≤ 90 then c + 32 else c) = p then commonPrefixLenIgnoreCase s pre + 1 else 0
  | _, _ => 0

/-- The length of the start of `s` that spells infinity: 3 (`inf`), 8
(`infinity`) or neither. -/
def infinityLen (s : GoString) : Nat :=
  let n := commonPrefixLenIgnoreCase s (goString "infinity")
  if 3 < n ∧ n < 8 then 3 else n

/-- The function `special` of `strconv`: a start of `s` that spells an optionally
signed infinity or an unsigned NaN, with the number of bytes it takes. -/
def special (s : GoString) : Option (F64 × Nat) :=
  match s with
  | [] => none
  | c :: t =>
    if c = 43 ∨ c = 45 then
      if infinityLen t = 3 ∨ infinityLen t = 8 then some (.inf (c = 45), 1 + infinityLen t) else none
    else if c = 105 ∨ c = 73 then
      if infinityLen s = 3 ∨ infinityLen s = 8 then some (.inf false, infinityLen s) else none
    else if c = 110 ∨ c = 78 then
      if commonPrefixLenIgnoreCase s (goString "nan") = 3 then some (.nan, 3) else none
    else none

/-- What `underscoreOK` has just seen: the start of the number, a digit or
base prefix, an underscore, anything else. -/
inductive Saw where
  | start : Saw
  | digit : Saw
  | underscore : Saw
  | other : Saw
deriving DecidableEq, Repr

/-- The loop of `underscoreOK`. -/
def underscoreOKLoop (hex : Bool) : List Nat → Saw → Bool
  | [], saw => saw != .underscore
  | c :: rest, saw =>
    if isDigit c ∨ (hex ∧ 97 ≤ lower c ∧ lower c ≤ 102) then underscoreOKLoop hex rest .digit
    else if c = 95 then
      if saw != .digit then false else underscoreOKLoop hex rest .underscore
    else if saw = .underscore then false
    else underscoreOKLoop hex rest .other

/-- The function `underscoreOK` of `strconv`: every underscore of `s` stands
between two digits, or between a base prefix and a digit. -/
def underscoreOK (s : GoString) : Bool :=
  let s1 := match s with
    | c :: t => if c = 45 ∨ c = 43 then t else s
    | [] => s
  match s1 with
  | a :: b :: t =>
    if a = 48 ∧ (lower b = 98 ∨ lower b = 111 ∨ lower b = 120) then
      underscoreOKLoop (lower b = 120) t .digit
    else underscoreOKLoop false s1 .start
  | _ => underscoreOKLoop false s1 .start

/-- The state of the mantissa loop of `readFloat`.  The library keeps the first
19 significant digits and a flag telling whether a non-zero digit was dropped,
and rounds the full number correctly from them; here `mantissa` holds all the
digits, and `fracDigits` counts those after the point, so that the number read
is `mantissa * base^(-fracDigits)`. -/
structure Mantissa where
  mantissa : Nat
  fracDigits : Nat
  sawdot : Bool
  sawdigits : Bool
  underscores : Bool
deriving DecidableEq, Repr

/-- The mantissa loop of `readFloat`: digits, at most one point, underscores;
it stops at the first other byte and returns what is left. -/
def readMantissa (hex : Bool) : List Nat → Mantissa → Mantissa × List Nat
  | [], st => (st, [])
  | c :: rest, st =>
    if c = 95 then readMantissa hex rest { st with underscores := true }
    else if c = 46 then
      if st.sawdot then (st, c :: rest) else readMantissa hex rest { st with sawdot := true }
    else if isDigit c then
      readMantissa hex rest
        { st with sawdigits := true,
                  mantissa := st.mantissa * (if hex then 16 else 10) + (c - 48),
                  fracDigits := if st.sawdot then st.fracDigits + 1 else st.fracDigits }
    else if hex ∧ 97 ≤ lower c ∧ lower c ≤ 102 then
      readMantissa hex rest
        { st with sawdigits := true,
                  mantissa := st.mantissa * 16 + (lower c - 97 + 10),
                  fracDigits := if st.sawdot then st.fracDigits + 1 else st.fracDigits }
    else (st, c :: rest)

/-- The exponent loop of `readFloat`: digits and underscores; the exponent
stops growing once it has reached 10000. -/
def readExpDigits : List Nat → Nat → Bool → Nat × Bool × List Nat
  | [], e, us => (e, us, [])
  | c :: rest, e, us =>
    if c = 95 then readExpDigits rest e true
    else if isDigit c then readExpDigits rest (if e < 10000 then e * 10 + (c - 48) else e) us
    else (e, us, c :: rest)

/-- What `readFloat` returns when it succeeds: the number is
`(-1)^neg * mantissa * base^exp` with base 16 digits and a power of 2 when
`hex`, base 10 otherwise; `rest` is the part of the string not read. -/
structure ReadFloat where
  mantissa : Nat
  exp : Int
  neg : Bool
  hex : Bool
  rest : GoString
deriving DecidableEq, Repr

/-- The function `readFloat` of `strconv`: optional sign, optional `0x`,
mantissa, optional exponent (`e`, or `p` which a hexadecimal mantissa must
have); `none` when the start of `s` is not a number. -/
def readFloat (s : GoString) : Option ReadFloat :=
  match s with
  | [] => none
  | c0 :: t0 =>
    let neg : Bool := c0 = 45
    let s1 := if c0 = 43 ∨ c0 = 45 then t0 else s
    let hex : Bool := match s1 with
      | a :: b :: _ :: _ => a = 48 ∧ lower b = 120
      | _ => false
    let s2 := if hex then s1.drop 2 else s1
    let st := (readMantissa hex s2 ⟨0, 0, false, false, false⟩).1
    let s3 := (readMantissa hex s2 ⟨0, 0, false, false, false⟩).2
    if !st.sawdigits then none else
    let dp : Int := -((st.fracDigits : Int) * (if hex then 4 else 1))
    let done (exp : Int) (us : Bool) (rest : GoString) : Option ReadFloat :=
      if us ∧ !underscoreOK (s.take (s.length - rest.length)) then none
      else some ⟨st.mantissa, exp, neg, hex, rest⟩
    match s3 with
    | [] => if hex then none else done dp st.underscores []
    | c :: s4 =>
      if lower c = (if hex then 112 else 101) then
        match s4 with
        | [] => none
        | c2 :: s5 =>
          let esign : Int := if c2 = 45 then -1 else 1
          let s6 := if c2 = 43 ∨ c2 = 45 then s5 else s4
          match s6 with
          | [] => none
          | c3 :: _ =>
            if !isDigit c3 then none else
            let r := readExpDigits s6 0 st.underscores
            done (dp + (r.1 : Int) * esign) r.2.1 r.2.2
      else if hex then none
      else done dp st.underscores s3

/-- `strconv.ParseFloat(s, bitSize)` for a `bitSize` other than 32 (the
source passes 8, which the library treats as 64): the value and the error.
The whole of `s` must be a number, else the value is 0 with `ErrSyntax`; a
number is rounded to the nearest float64, and one too large gives an infinity
with `ErrRange`. -/
def ParseFloat (s : GoString) : F64 × Option NumError :=
  match special s with
  | some (f, n) => if n = s.length then (f, none) else (.fin false 0 0, some .ErrSyntax)
  | none =>
    match readFloat s with
    | none => (.fin false 0 0, some .ErrSyntax)
    | some r =>
      if r.rest ≠ [] then (.fin false 0 0, some .ErrSyntax) else
      let base : Nat := if r.hex then 2 else 10
      let n : Nat := if 0 ≤ r.exp then r.mantissa * base ^ r.exp.toNat else r.mantissa
      let d : Nat := if 0 ≤ r.exp then 1 else base ^ (-r.exp).toNat
      ((roundFloat64 r.neg n d).1, if (roundFloat64 r.neg n d).2 then some .ErrRange else none)

/-! ## countAlphaNumeric (`main.go` lines 166-179) -/

/-- The test of lines 171-173 on the byte `nextChar`. -/
def isAlphaNumeric (nextChar : Nat) : Bool :=
  (97 ≤ nextChar && nextChar ≤ 122) ||
  (65 ≤ nextChar && nextChar ≤ 90) ||
  (48 ≤ nextChar && nextChar ≤ 57)

/-- The function `countAlphaNumeric`: the loop over the bytes of `str`, `count`
going up by one at each byte that passes the test.  (`count` never exceeds
`len(str)`, which is an `int`, so `count++` cannot overflow.) -/
def countAlphaNumeric (str : GoString) : Int :=
  str.foldl (fun count nextChar => if isAlphaNumeric nextChar then count + 1 else count) 0

/-! ## calculatePoints (`main.go` lines 115-164)

The body of `calculatePoints` is six blocks, each of which updates the local
variable `points`.  Each block is a function from the receipt and the value of
`points` before the block to the value after it. -/

/-- Lines 118-119: the alphanumeric check. -/
def scoreRetailer (impl : GoImpl) (receipt : Receipt) (points : Int) : Int :=
  addInt impl.intSize points (countAlphaNumeric receipt.Retailer)

/-- Lines 121-131: the round dollar amount and multiple of 25 check.  The slice
`receipt.Total[totalStrLen-2:]` panics when the total has fewer than two
bytes; the error of `Atoi` is discarded. -/
def scoreTotal (impl : GoImpl) (receipt : Receipt) (points : Int) : Option Int := do
  let totalStrLen : Int := receipt.Total.length
  let cents := (Atoi impl.intSize (← goSlice receipt.Total (totalStrLen - 2) totalStrLen)).1
  let points := if cents = 0 then addInt impl.intSize points 50 else points
  let points := if cents.tmod 25 = 0 then addInt impl.intSize points 25 else points
  pure points

/-- Lines 133-134: the pairs of items, `(len(receipt.Items) / 2) * 5`. -/
def scorePairs (impl : GoImpl) (receipt : Receipt) (points : Int) : Int :=
  addInt impl.intSize points (mulInt impl.intSize ((receipt.Items.length / 2 : Nat) : Int) 5)

/-- Lines 141-143 for one price: `int(math.Ceil(priceAsFloat * 0.2))`, where
`priceAsFloat` is what `ParseFloat` returns, its error discarded. -/
def priceBonus (impl : GoImpl) (price : GoString) : Int :=
  (Ceil ((ParseFloat price).1.mul const02)).toInt impl

/-- Lines 136-146: the loop over the item descriptions. -/
def scoreItems (impl : GoImpl) (receipt : Receipt) (points : Int) : Int :=
  receipt.Items.foldl
    (fun points item =>
      if item.ShortDescription.length % 3 = 0 then
        addInt impl.intSize points (priceBonus impl item.Price)
      else points)
    points

/-- Lines 148-154: the purchase date.  The slice panics when the date has
fewer than two bytes. -/
def scoreDate (impl : GoImpl) (receipt : Receipt) (points : Int) : Option Int := do
  let dateStrLen : Int := receipt.PurchaseDate.length
  let day := (Atoi impl.intSize (← goSlice receipt.PurchaseDate (dateStrLen - 2) dateStrLen)).1
  let points := if day.tmod 2 = 1 then addInt impl.intSize points 6 else points
  pure points

/-- Lines 156-161: the purchase time.  The slice `receipt.PurchaseTime[0:2]`
panics when the time has fewer than two bytes. -/
def scoreTime (impl : GoImpl) (receipt : Receipt) (points : Int) : Option Int := do
  let hour := (Atoi impl.intSize (← goSlice receipt.PurchaseTime 0 2)).1
  let points := if 14 ≤ hour ∧ hour < 16 then addInt impl.intSize points 10 else points
  pure points

/-- The function `calculatePoints`: `points` starts at 0 and goes through the
six blocks in the order of the source; `none` is a run-time panic. -/
def calculatePoints (impl : GoImpl) (receipt : Receipt) : Option Int := do
  let points : Int := 0
  let points := scoreRetailer impl receipt points
  let points ← scoreTotal impl receipt points
  let points := scorePairs impl receipt points
  let points := scoreItems impl receipt points
  let points ← scoreDate impl receipt points
  let points ← scoreTime impl receipt points
  pure points

/-! ## The validation of processReceipts (`main.go` lines 45-63) -/

/-- Lines 45-63 of `processReceipts`: the final value of the flag `invalid`,
given whether decoding returned an error and the receipt that was read. -/
def receiptInvalid (decodeFailed : Bool) (readReceipt : Receipt) : Bool :=
  let invalid := false
  let invalid := if decodeFailed then true else invalid
  let invalid :=
    if readReceipt.Retailer = [] ∨ readReceipt.PurchaseDate = [] ∨
        readReceipt.PurchaseTime = [] ∨ readReceipt.Total = [] then true
    else invalid
  readReceipt.Items.foldl
    (fun invalid item => if item.ShortDescription = [] ∨ item.Price = [] then true else invalid)
    invalid

/-- The Validator accepts a decoded receipt: the flag `invalid` stays false. -/
def accepts (receipt : Receipt) : Bool := !receiptInvalid false receipt

/-! ## The store and the two handlers (`main.go` lines 35-113)

The handlers read and write the global map `receiptsMap`; here each takes the
map as an argument and returns the map it leaves.  What depends on the world
outside is an argument as well: the identifier that `uuid.New().String()`
returns, the outcome of decoding the request body (whether `Decode` returned
an error, and the receipt it left in `readReceipt`), and the `id` of the URL.
A response is its status code and the JSON object of its body; the headers are
left out. -/

/-- The map `receiptsMap` (line 35), as its lookup: the receipt stored under an
identifier, or `none` when the identifier is not a key. -/
abbrev Store := GoString → Option Receipt

/-- `make(map[string]Receipt)`: the map with no key. -/
def emptyStore : Store := fun _ => none

/-- The assignment `receiptsMap[key] = receipt`. -/
def setReceipt (receiptsMap : Store) (key : GoString) (receipt : Receipt) : Store :=
  fun id => if id = key then some receipt else receiptsMap id

/-- The JSON object of a response body: `{"description": ...}`, `{"id": ...}`
(the struct `ID`) or `{"points": ...}` (the struct `Points`). -/
inductive Body where
  | description (text : GoString) : Body
  | id (ID : GoString) : Body
  | points (Points : Int) : Body
deriving DecidableEq, Repr

/-- A response: the status code and the body. -/
structure Response where
  status : Nat
  body : Body
deriving DecidableEq, Repr

/-- The handler `processReceipts` (lines 37-86): the response and the map it
leaves.  An invalid candidate gets status 400 (`http.StatusBadRequest`) and
the map is not touched; a valid one is stored under `key`, which is returned
with the status 200 that `Encode` writes by default. -/
def processReceipts (receiptsMap : Store) (key : GoString) (decodeFailed : Bool)
    (readReceipt : Receipt) : Response × Store :=
  if receiptInvalid decodeFailed readReceipt then
    (⟨400, .description (goString "The receipt is invalid")⟩, receiptsMap)
  else
    (⟨200, .id key⟩, setReceipt receiptsMap key readReceipt)

/-- The handler `getPoints` (lines 88-113): the response and the map it leaves,
which is the map it was given.  An identifier that is not a key gets status
404 (`http.StatusNotFound`); the response is `none` when `calculatePoints`
panics, the handler writing nothing then. -/
def getPoints (impl : GoImpl) (receiptsMap : Store) (id : GoString) :
    Option Response × Store :=
  match receiptsMap id with
  | none => (some ⟨404, .description (goString "No receipt found for that id")⟩, receiptsMap)
  | some receipt =>
    ((calculatePoints impl receipt).map (fun points => ⟨200, .points points⟩), receiptsMap)

/-- A request to the service: a submission (with the identifier generated for
it and the outcome of decoding its body) or a points query. -/
inductive Request where
  | process (key : GoString) (decodeFailed : Bool) (readReceipt : Receipt) : Request
  | points (id : GoString) : Request

/-- The map after a request. -/
def handle (impl : GoImpl) (receiptsMap : Store) : Request → Store
  | .process key decodeFailed readReceipt =>
    (processReceipts receiptsMap key decodeFailed readReceipt).2
  | .points id => (getPoints impl receiptsMap id).2

/-- The map after a sequence of requests, served one after the other. -/
def serve (impl : GoImpl) (receiptsMap : Store) (requests : List Request) : Store :=
  requests.foldl (handle impl) receiptsMap

/-- Every receipt of the map is one that the validation accepts. -/
def AllAccepted (receiptsMap : Store) : Prop :=
  ∀ (id : GoString) (receipt : Receipt), receiptsMap id = some receipt →
    receiptInvalid false receipt = false

/-! ## The receipts of the examples -/

/-- The receipt of the end-to-end scenario. -/
def targetReceipt : Receipt where
  Retailer := goString "Target"
  PurchaseDate := goString "2022-01-01"
  PurchaseTime := goString "13:01"
  Items :=
    [⟨goString "Mountain Dew 12PK", goString "6.49"⟩,
     ⟨goString "Emils Cheese Pizza", goString "12.25"⟩,
     ⟨goString "Knorr Creamy Chicken", goString "1.26"⟩,
     ⟨goString "Doritos Nacho Cheese", goString "3.35"⟩,
     ⟨goString "Klarbrunn 12-PK 12 FL OZ", goString "12.00"⟩]
  Total := goString "35.35"

/-- A receipt on which no rule fires. -/
def quietReceipt : Receipt where
  Retailer := goString "&&"
  PurchaseDate := goString "2022-01-02"
  PurchaseTime := goString "13:01"
  Items := [⟨goString "ab", goString "1.00"⟩]
  Total := goString "1.01"

/-- The end-to-end receipt with another total. -/
def withTotal (total : String) : Receipt := { targetReceipt with Total := goString total }

/-- The end-to-end receipt with another purchase date. -/
def withDate (date : String) : Receipt := { targetReceipt with PurchaseDate := goString date }

/-- The end-to-end receipt with another purchase time. -/
def withTime (time : String) : Receipt := { targetReceipt with PurchaseTime := goString time }

/-- The end-to-end receipt with other items. -/
def withItems (items : List Item) : Receipt := { targetReceipt with Items := items }

/-- A receipt for a refund: one item, with a negative price. -/
def refundReceipt : Receipt where
  Retailer := goString "Target"
  PurchaseDate := goString "2022-01-02"
  PurchaseTime := goString "13:01"
  Items := [⟨goString "Refund", goString "-1000.00"⟩]
  Total := goString "-1000.00"

/-- A receipt with two items of the price "4e19". -/
def bulkReceipt : Receipt where
  Retailer := goString "Target"
  PurchaseDate := goString "2022-01-01"
  PurchaseTime := goString "13:01"
  Items := [⟨goString "abc", goString "4e19"⟩, ⟨goString "abc", goString "4e19"⟩]
  Total := goString "35.35"

/-- The end-to-end receipt with another total and another purchase date. -/
def withTotalDate (total date : String) : Receipt :=
  { targetReceipt with Total := goString total, PurchaseDate := goString date }

/-! ## ASCII letters and digits -/

/-- The byte is an ASCII letter (`a`-`z`, `A`-`Z`) or an ASCII digit (`0`-`9`). -/
def IsAsciiLetterOrDigit (b : Nat) : Prop :=
  ('a'.toNat ≤ b ∧ b ≤ 'z'.toNat) ∨ ('A'.toNat ≤ b ∧ b ≤ 'Z'.toNat) ∨
    ('0'.toNat ≤ b ∧ b ≤ '9'.toNat)

instance : DecidablePred IsAsciiLetterOrDigit := fun b => by
  unfold IsAsciiLetterOrDigit; infer_instance

/-! ## The contributions of the rules -/

/-- The items whose description has a length that is a multiple of 3. -/
def countedItems (items : List Item) : List Item :=
  items.filter (fun item => item.ShortDescription.length % 3 = 0)

/-- The sum of `priceBonus` over the counted items. -/
def itemsBonus (impl : GoImpl) (items : List Item) : Int :=
  ((countedItems items).map (fun item => priceBonus impl item.Price)).sum

/-- What the total block adds for a value of `cents`. -/
def centsBonus (cents : Int) : Int :=
  (if cents = 0 then 50 else 0) + (if cents.tmod 25 = 0 then 25 else 0)

/-- What the date block adds for a value of `day`. -/
def dayBonus (day : Int) : Int := if day.tmod 2 = 1 then 6 else 0

/-- What the time block adds for a value of `hour`. -/
def hourBonus (hour : Int) : Int := if 14 ≤ hour ∧ hour < 16 then 10 else 0

/-- The value of `cents` in `calculatePoints`, for a total of at least two bytes. -/
def centsOf (impl : GoImpl) (receipt : Receipt) : Int :=
  (Atoi impl.intSize (receipt.Total.drop (receipt.Total.length - 2))).1

/-- The value of `day` in `calculatePoints`, for a date of at least two bytes. -/
def dayOf (impl : GoImpl) (receipt : Receipt) : Int :=
  (Atoi impl.intSize (receipt.PurchaseDate.drop (receipt.PurchaseDate.length - 2))).1

/-- The value of `hour` in `calculatePoints`, for a time of at least two bytes. -/
def hourOf (impl : GoImpl) (receipt : Receipt) : Int :=
  (Atoi impl.intSize (receipt.PurchaseTime.take 2)).1

/-- The sum of the seven contributions, as an integer (not reduced to an `int`). -/
def ruleSum (impl : GoImpl) (receipt : Receipt) : Int :=
  countAlphaNumeric receipt.Retailer + centsBonus (centsOf impl receipt) +
    5 * ((receipt.Items.length / 2 : Nat) : Int) + itemsBonus impl receipt.Items +
    dayBonus (dayOf impl receipt) + hourBonus (hourOf impl receipt)

/-! ## The item rule as the specification words it -/

/-- The number of characters of a string: its UTF-8 code points, that is, its
bytes other than the continuation bytes `10xxxxxx`. -/
def specCharLength (s : GoString) : Nat := s.countP (fun b => b / 64 ≠ 2)

/-- The number written by a list of decimal digits, most significant first. -/
def digitsValue (ds : List Nat) : Nat := ds.foldl (fun n c => n * 10 + (c - 48)) 0

/-- The number written by a list of decimal digits, most significant first;
`none` if a byte is not a digit. -/
def specDigits : List Nat → Nat → Option Nat
  | [], n => some n
  | c :: rest, n => if isDigit c then specDigits rest (n * 10 + (c - 48)) else none

/-- A price read as a decimal number: digits, then optionally a point and
digits; `none` for any other string. -/
def specDecimal (price : GoString) : Option ℚ :=
  let whole := price.takeWhile (fun c => c ≠ 46)
  let frac := (price.dropWhile (fun c => c ≠ 46)).drop 1
  if whole = [] then none else
  match specDigits whole 0, specDigits frac 0 with
  | some w, some f => some ((w : ℚ) + (f : ℚ) / 10 ^ frac.length)
  | _, _ => none

/-- The points of one item as the specification words them: for a description
whose character length is a multiple of 3, the ceiling of 0.2 times the price
read as a decimal number; nothing for the other descriptions. -/
def specItemBonus (item : Item) : Option Int :=
  if specCharLength item.ShortDescription % 3 = 0 then
    (specDecimal item.Price).map (fun q => ⌈(2 / 10 : ℚ) * q⌉)
  else some 0

/-! ## Prices as the data model writes them -/

/-- The price is written as the data model writes prices, digits, a point and
two digits, and the digits before the point write a number below one billion. -/
def plainPrice (price : GoString) : Bool :=
  let whole := price.take (price.length - 3)
  !whole.isEmpty && whole.all isDigit && decide (digitsValue whole < 10 ^ 9) &&
    (match price.drop (price.length - 3) with
     | [p, a, b] => p == 46 && isDigit a && isDigit b
     | _ => false)

/-! ## Lemmas -/

/-! ### `int` arithmetic, `Atoi` and the slices -/

theorem wrapInt_wrapInt_add (sz : IntSize) (a b : Int) :
    wrapInt sz (wrapInt sz a + b) = wrapInt sz (a + b) := by
  cases sz <;> simp only [wrapInt, IntSize.bits] <;> norm_num <;> omega

theorem wrapInt_add_wrapInt (sz : IntSize) (a b : Int) :
    wrapInt sz (a + wrapInt sz b) = wrapInt sz (a + b) := by
  cases sz <;> simp only [wrapInt, IntSize.bits] <;> norm_num <;> omega

theorem wrapInt_idem (sz : IntSize) (a : Int) : wrapInt sz (wrapInt sz a) = wrapInt sz a := by
  cases sz <;> simp only [wrapInt, IntSize.bits] <;> norm_num

theorem wrapInt_of_small (sz : IntSize) (z : Int) (h1 : -2147483648 ≤ z) (h2 : z < 2147483648) :
    wrapInt sz z = z := by
  cases sz <;> simp only [wrapInt, IntSize.bits] <;> norm_num <;> omega

theorem wrapInt_of_range (sz : IntSize) (z : Int) (h1 : -(2 ^ (sz.bits - 1) : Int) ≤ z)
    (h2 : z < 2 ^ (sz.bits - 1)) : wrapInt sz z = z := by
  cases sz <;> simp only [wrapInt, IntSize.bits] at * <;> norm_num at * <;> (try omega)

theorem wrapInt_range (sz : IntSize) (z : Int) :
    -(2 ^ (sz.bits - 1) : Int) ≤ wrapInt sz z ∧ wrapInt sz z < 2 ^ (sz.bits - 1) := by
  cases sz <;> simp only [wrapInt, IntSize.bits] <;> norm_num <;> omega

theorem addInt_addInt (sz : IntSize) (p a b : Int) :
    addInt sz (addInt sz p a) b = addInt sz p (a + b) := by
  simp only [addInt, wrapInt_wrapInt_add, add_assoc]

theorem addInt_mulInt (sz : IntSize) (p a b : Int) :
    addInt sz p (mulInt sz a b) = wrapInt sz (p + a * b) := by
  simp only [addInt, mulInt, wrapInt_add_wrapInt]

/-- `Atoi` on a string of two bytes. -/
theorem Atoi_two (sz : IntSize) (a b : Nat) :
    Atoi sz [a, b] =
      if a = 45 ∨ a = 43 then
        (if isDigit b then ((if a = 45 then -((b : Int) - 48) else (b : Int) - 48), none)
         else (0, some .ErrSyntax))
      else if isDigit a ∧ isDigit b then (((a : Int) - 48) * 10 + ((b : Int) - 48), none)
      else (0, some .ErrSyntax) := by
  cases sz <;> simp [Atoi, atoiDigits] <;> split_ifs <;> simp_all [atoiDigits]

theorem goSlice_suffix (s : GoString) (h : 2 ≤ s.length) :
    goSlice s ((s.length : Int) - 2) s.length = some (s.drop (s.length - 2)) := by
  have h1 : ((s.length : Int) - 2).toNat = s.length - 2 := by omega
  have h2 : (0 : Int) ≤ (s.length : Int) - 2 ∧ (s.length : Int) - 2 ≤ s.length ∧
      (s.length : Int) ≤ ((s.length : Nat) : Int) := by omega
  simp only [goSlice, h2, and_self, if_true, h1, Int.toNat_ofNat, List.take_length]

theorem goSlice_suffix_short (s : GoString) (h : s.length < 2) :
    goSlice s ((s.length : Int) - 2) s.length = none := by
  have h2 : ¬ ((0 : Int) ≤ (s.length : Int) - 2 ∧ (s.length : Int) - 2 ≤ s.length ∧
      (s.length : Int) ≤ ((s.length : Nat) : Int)) := by omega
  simp only [goSlice, h2, if_false]

theorem goSlice_prefix (s : GoString) (h : 2 ≤ s.length) :
    goSlice s 0 2 = some (s.take 2) := by
  have h2 : (0 : Int) ≤ 0 ∧ (0 : Int) ≤ 2 ∧ (2 : Int) ≤ ((s.length : Nat) : Int) := by omega
  simp [goSlice, h2]

theorem goSlice_prefix_short (s : GoString) (h : s.length < 2) :
    goSlice s 0 2 = none := by
  have h2 : ¬ ((0 : Int) ≤ 0 ∧ (0 : Int) ≤ 2 ∧ (2 : Int) ≤ ((s.length : Nat) : Int)) := by omega
  simp only [goSlice, h2, if_false]

theorem drop_append_two (pre : GoString) (a b : Nat) :
    (pre ++ [a, b]).drop ((pre ++ [a, b]).length - 2) = [a, b] := by
  simp

theorem foldl_count (l : GoString) (c : Int) :
    l.foldl (fun count nextChar => if isAlphaNumeric nextChar then count + 1 else count) c
      = c + (l.countP isAlphaNumeric : Int) := by
  induction l generalizing c with
  | nil => simp
  | cons x xs ih =>
    simp only [List.foldl_cons, ih, List.countP_cons]
    split_ifs
    · simp; ring
    · simp

theorem tmod_25_eq_zero_iff (x : Int) : x.tmod 25 = 0 ↔ x % 25 = 0 := by
  rw [← Int.dvd_iff_tmod_eq_zero, Int.dvd_iff_emod_eq_zero]

theorem tmod_2_eq_one_iff (x : Int) : x.tmod 2 = 1 ↔ (0 ≤ x ∧ x % 2 = 1) := by
  rcases le_or_lt 0 x with h | h
  · rw [Int.tmod_eq_emod h (by norm_num)]
    simp [h]
  · have h1 : x.tmod 2 ≤ 0 := by
      cases x with
      | ofNat m => exact absurd h (by simp)
      | negSucc m =>
        show -(((m + 1) % 2 : Nat) : Int) ≤ 0
        omega
    constructor
    · intro h3
      omega
    · intro h3
      omega

theorem scoreTotal_eq (impl : GoImpl) (receipt : Receipt) (points : Int)
    (h : 2 ≤ receipt.Total.length) :
    scoreTotal impl receipt points =
      some (if ((Atoi impl.intSize (receipt.Total.drop (receipt.Total.length - 2))).1).tmod 25 = 0
        then addInt impl.intSize
          (if (Atoi impl.intSize (receipt.Total.drop (receipt.Total.length - 2))).1 = 0
            then addInt impl.intSize points 50 else points) 25
        else (if (Atoi impl.intSize (receipt.Total.drop (receipt.Total.length - 2))).1 = 0
            then addInt impl.intSize points 50 else points)) := by
  simp only [scoreTotal, goSlice_suffix _ h, Option.bind_eq_bind, Option.some_bind,
    Option.pure_def]

theorem scoreTotal_short (impl : GoImpl) (receipt : Receipt) (points : Int)
    (h : receipt.Total.length < 2) : scoreTotal impl receipt points = none := by
  simp only [scoreTotal, goSlice_suffix_short _ h, Option.bind_eq_bind, Option.none_bind]

theorem scoreDate_eq (impl : GoImpl) (receipt : Receipt) (points : Int)
    (h : 2 ≤ receipt.PurchaseDate.length) :
    scoreDate impl receipt points =
      some (if ((Atoi impl.intSize
          (receipt.PurchaseDate.drop (receipt.PurchaseDate.length - 2))).1).tmod 2 = 1
        then addInt impl.intSize points 6 else points) := by
  simp only [scoreDate, goSlice_suffix _ h, Option.bind_eq_bind, Option.some_bind,
    Option.pure_def]

theorem scoreDate_short (impl : GoImpl) (receipt : Receipt) (points : Int)
    (h : receipt.PurchaseDate.length < 2) : scoreDate impl receipt points = none := by
  simp only [scoreDate, goSlice_suffix_short _ h, Option.bind_eq_bind, Option.none_bind]

theorem scoreTime_eq (impl : GoImpl) (receipt : Receipt) (points : Int)
    (h : 2 ≤ receipt.PurchaseTime.length) :
    scoreTime impl receipt points =
      some (if 14 ≤ (Atoi impl.intSize (receipt.PurchaseTime.take 2)).1 ∧
          (Atoi impl.intSize (receipt.PurchaseTime.take 2)).1 < 16
        then addInt impl.intSize points 10 else points) := by
  simp only [scoreTime, goSlice_prefix _ h, Option.bind_eq_bind, Option.some_bind,
    Option.pure_def]

theorem scoreTime_short (impl : GoImpl) (receipt : Receipt) (points : Int)
    (h : receipt.PurchaseTime.length < 2) : scoreTime impl receipt points = none := by
  simp only [scoreTime, goSlice_prefix_short _ h, Option.bind_eq_bind, Option.none_bind]

/-- A string of at least two bytes ends in two bytes. -/
theorem drop_eq_pair (s : GoString) (h : 2 ≤ s.length) :
    ∃ a b, s.drop (s.length - 2) = [a, b] := by
  have hl : (s.drop (s.length - 2)).length = 2 := by
    rw [List.length_drop]; omega
  match hs : s.drop (s.length - 2), hl with
  | [a, b], _ => exact ⟨a, b, rfl⟩

/-- A string of at least two bytes starts with two bytes. -/
theorem take_eq_pair (s : GoString) (h : 2 ≤ s.length) :
    ∃ a b, s.take 2 = [a, b] := by
  match s, h with
  | a :: b :: t, _ => exact ⟨a, b, rfl⟩

/-- When `Atoi` fails on a string of two bytes, the value is 0. -/
theorem Atoi_two_error (sz : IntSize) (a b : Nat) (h : (Atoi sz [a, b]).2 ≠ none) :
    (Atoi sz [a, b]).1 = 0 := by
  rw [Atoi_two] at h ⊢
  split_ifs at h ⊢ <;> simp_all

theorem foldl_items (impl : GoImpl) (items : List Item) (p : Int) :
    items.foldl
      (fun points item =>
        if item.ShortDescription.length % 3 = 0 then
          addInt impl.intSize points (priceBonus impl item.Price)
        else points)
      (wrapInt impl.intSize p) = wrapInt impl.intSize (p + itemsBonus impl items) := by
  induction items generalizing p with
  | nil => simp [itemsBonus, countedItems]
  | cons x xs ih =>
    rw [List.foldl_cons]
    by_cases hx : x.ShortDescription.length % 3 = 0
    · rw [if_pos hx, addInt, wrapInt_wrapInt_add, ih]
      simp [itemsBonus, countedItems, hx, add_assoc]
    · rw [if_neg hx, ih]
      simp [itemsBonus, countedItems, hx]

theorem scoreItems_wrapInt (impl : GoImpl) (receipt : Receipt) (p : Int) :
    scoreItems impl receipt (wrapInt impl.intSize p) =
      wrapInt impl.intSize (p + itemsBonus impl receipt.Items) :=
  foldl_items impl receipt.Items p

theorem scoreTotal_wrapInt (impl : GoImpl) (receipt : Receipt) (p : Int)
    (h : 2 ≤ receipt.Total.length) :
    scoreTotal impl receipt (wrapInt impl.intSize p) =
      some (wrapInt impl.intSize (p + centsBonus (centsOf impl receipt))) := by
  rw [scoreTotal_eq impl receipt _ h]
  simp only [centsBonus, centsOf, addInt]
  split_ifs <;> simp [wrapInt_wrapInt_add, add_assoc]

theorem scoreDate_wrapInt (impl : GoImpl) (receipt : Receipt) (p : Int)
    (h : 2 ≤ receipt.PurchaseDate.length) :
    scoreDate impl receipt (wrapInt impl.intSize p) =
      some (wrapInt impl.intSize (p + dayBonus (dayOf impl receipt))) := by
  rw [scoreDate_eq impl receipt _ h]
  simp only [dayBonus, dayOf, addInt]
  split_ifs <;> simp [wrapInt_wrapInt_add]

theorem scoreTime_wrapInt (impl : GoImpl) (receipt : Receipt) (p : Int)
    (h : 2 ≤ receipt.PurchaseTime.length) :
    scoreTime impl receipt (wrapInt impl.intSize p) =
      some (wrapInt impl.intSize (p + hourBonus (hourOf impl receipt))) := by
  rw [scoreTime_eq impl receipt _ h]
  simp only [hourBonus, hourOf, addInt]
  split_ifs <;> simp [wrapInt_wrapInt_add]

/-- For a receipt whose total, date and time have at least two bytes,
`calculatePoints` returns the sum of the seven contributions, as an `int`. -/
theorem calculatePoints_eq_ruleSum (impl : GoImpl) (receipt : Receipt)
    (hTotal : 2 ≤ receipt.Total.length) (hDate : 2 ≤ receipt.PurchaseDate.length)
    (hTime : 2 ≤ receipt.PurchaseTime.length) :
    calculatePoints impl receipt = some (wrapInt impl.intSize (ruleSum impl receipt)) := by
  simp only [calculatePoints, scoreRetailer, addInt, zero_add, Option.bind_eq_bind,
    Option.pure_def]
  rw [scoreTotal_wrapInt impl receipt _ hTotal, Option.some_bind]
  rw [scorePairs, addInt_mulInt, ← addInt, addInt, wrapInt_wrapInt_add, scoreItems_wrapInt,
    scoreDate_wrapInt impl receipt _ hDate, Option.some_bind,
    scoreTime_wrapInt impl receipt _ hTime, Option.bind_some]
  simp only [ruleSum, mul_comm]

/-- The run-time panics of `calculatePoints`: exactly when the total, the date
or the time has fewer than two bytes. -/
theorem calculatePoints_eq_none_iff (impl : GoImpl) (receipt : Receipt) :
    calculatePoints impl receipt = none ↔
      receipt.Total.length < 2 ∨ receipt.PurchaseDate.length < 2 ∨
        receipt.PurchaseTime.length < 2 := by
  constructor
  · intro h
    by_contra hc
    push_neg at hc
    rw [calculatePoints_eq_ruleSum impl receipt hc.1 hc.2.1 hc.2.2] at h
    exact Option.some_ne_none _ h
  · intro h
    simp only [calculatePoints, Option.bind_eq_bind, Option.pure_def]
    by_cases hT : receipt.Total.length < 2
    · rw [scoreTotal_short impl receipt _ hT, Option.none_bind]
    · rw [scoreTotal_eq impl receipt _ (by omega), Option.some_bind]
      by_cases hD : receipt.PurchaseDate.length < 2
      · rw [scoreDate_short impl receipt _ hD, Option.none_bind]
      · rw [scoreDate_eq impl receipt _ (by omega), Option.some_bind]
        have hTi : receipt.PurchaseTime.length < 2 := by
          rcases h with h | h | h
          · exact absurd h hT
          · exact absurd h hD
          · exact h
        rw [scoreTime_short impl receipt _ hTi, Option.none_bind]

/-- The conversion `int(f)` of a finite integer value below `2^31` in size. -/
theorem toInt_small (impl : GoImpl) (neg : Bool) (m : Nat) (hm : m < 2147483648) :
    (F64.fin neg m 0).toInt impl = if neg then -(m : Int) else m := by
  obtain ⟨sz, oor⟩ := impl
  have h1 : (m : Int) < 2147483648 := by exact_mod_cast hm
  cases sz <;> cases neg <;> simp [F64.toInt, IntSize.bits] <;> intro h <;> omega

/-- The bonus of a price from the value of the ceiling. -/
theorem priceBonus_of_ceil (impl : GoImpl) (price : GoString) (neg : Bool) (m : Nat)
    (h : Ceil ((ParseFloat price).1.mul const02) = .fin neg m 0) (hm : m < 2147483648) :
    priceBonus impl price = if neg then -(m : Int) else m := by
  rw [priceBonus, h, toInt_small impl neg m hm]

/-! ### Rounding to float64 -/

theorem bitLenAux_spec (fuel n : Nat) (hfuel : n ≤ fuel) (hn : 0 < n) :
    2 ^ (bitLenAux fuel n - 1) ≤ n ∧ n < 2 ^ bitLenAux fuel n ∧ 0 < bitLenAux fuel n := by
  induction fuel generalizing n with
  | zero => omega
  | succ fuel ih =>
    rw [bitLenAux, if_neg (by omega)]
    rcases Nat.eq_or_lt_of_le (show 1 ≤ n by omega) with h1 | h1
    · subst h1
      have h0 : bitLenAux fuel (1 / 2) = 0 := by
        cases fuel <;> simp [bitLenAux]
      rw [h0]
      simp
    · have := ih (n / 2) (by omega) (by omega)
      obtain ⟨ha, hb, hc⟩ := this
      refine ⟨?_, ?_, by omega⟩
      · have : bitLenAux fuel (n / 2) + 1 - 1 = (bitLenAux fuel (n / 2) - 1) + 1 := by omega
        rw [this, pow_succ]
        omega
      · rw [pow_succ]
        omega

theorem bitLen_spec (n : Nat) (hn : 0 < n) :
    2 ^ (bitLen n - 1) ≤ n ∧ n < 2 ^ bitLen n ∧ 0 < bitLen n :=
  bitLenAux_spec n n le_rfl hn

theorem divRoundEven_spec (N D : Nat) (hD : 0 < D) :
    |((divRoundEven N D : Nat) : ℚ) - (N : ℚ) / D| ≤ 1 / 2 := by
  have hDq : (0 : ℚ) < D := by exact_mod_cast hD
  have hN : (N : ℚ) = (D : ℚ) * (N / D : Nat) + (N % D : Nat) := by
    exact_mod_cast (Nat.div_add_mod N D).symm
  have hr : N % D < D := Nat.mod_lt N hD
  have hrq : ((N % D : Nat) : ℚ) < D := by exact_mod_cast hr
  have hr0 : (0 : ℚ) ≤ ((N % D : Nat) : ℚ) := by positivity
  have hdiv : (N : ℚ) / D = (N / D : Nat) + ((N % D : Nat) : ℚ) / D := by
    rw [hN]
    field_simp
    ring
  rw [hdiv, abs_le]
  unfold divRoundEven
  simp only []
  split_ifs with h1 h2 h3
  · have h1q : (2 : ℚ) * ((N % D : Nat) : ℚ) < D := by exact_mod_cast h1
    have : ((N % D : Nat) : ℚ) / D < 1 / 2 := by
      rw [div_lt_iff₀ hDq]; linarith
    have : 0 ≤ ((N % D : Nat) : ℚ) / D := by positivity
    constructor <;> linarith
  · have h2q : (D : ℚ) < 2 * ((N % D : Nat) : ℚ) := by exact_mod_cast h2
    have h3 : 1 / 2 < ((N % D : Nat) : ℚ) / D := by
      rw [lt_div_iff₀ hDq]; linarith
    have h4 : ((N % D : Nat) : ℚ) / D < 1 := by
      rw [div_lt_iff₀ hDq]; linarith
    push_cast
    constructor <;> linarith
  · have heq : 2 * (N % D) = D := by omega
    have heqq : (2 : ℚ) * ((N % D : Nat) : ℚ) = D := by exact_mod_cast heq
    have : ((N % D : Nat) : ℚ) / D = 1 / 2 := by
      rw [div_eq_iff (ne_of_gt hDq)]; linarith
    rw [this]
    constructor <;> linarith
  · have heq : 2 * (N % D) = D := by omega
    have heqq : (2 : ℚ) * ((N % D : Nat) : ℚ) = D := by exact_mod_cast heq
    have : ((N % D : Nat) : ℚ) / D = 1 / 2 := by
      rw [div_eq_iff (ne_of_gt hDq)]; linarith
    rw [this]
    push_cast
    constructor <;> linarith

theorem scale2_spec (n d : Nat) (hd : 0 < d) (e : Int) :
    0 < (scale2 n d e).2 ∧
    ((scale2 n d e).1 : ℚ) / ((scale2 n d e).2 : ℚ) = (n : ℚ) / d * (2 : ℚ) ^ (-e) := by
  have hdq : (0 : ℚ) < d := by exact_mod_cast hd
  unfold scale2
  split_ifs with h
  · refine ⟨by positivity, ?_⟩
    have he : (e.toNat : Int) = e := Int.toNat_of_nonneg h
    have : (2 : ℚ) ^ (-e) = ((2 : ℚ) ^ e.toNat)⁻¹ := by
      rw [zpow_neg, ← zpow_natCast, he]
    rw [this]
    push_cast
    field_simp
  · refine ⟨hd, ?_⟩
    have he : ((-e).toNat : Int) = -e := Int.toNat_of_nonneg (by omega)
    have : (2 : ℚ) ^ (-e) = (2 : ℚ) ^ (-e).toNat := by
      rw [← zpow_natCast, he]
    rw [this]
    push_cast
    field_simp

theorem two_zpow_pos (e : Int) : (0 : ℚ) < (2 : ℚ) ^ e := zpow_pos (by norm_num) e

/-- The rational `x` lies between two powers of 2 when `x * 2^(-e)` does. -/
theorem of_scaled_bounds (x : ℚ) (e a b : Int) (h1 : (2 : ℚ) ^ a ≤ x * 2 ^ (-e))
    (h2 : x * 2 ^ (-e) < (2 : ℚ) ^ b) : (2 : ℚ) ^ (a + e) ≤ x ∧ x < (2 : ℚ) ^ (b + e) := by
  have hpos := two_zpow_pos e
  have hx : x = x * 2 ^ (-e) * 2 ^ e := by
    rw [mul_assoc, ← zpow_add₀ (by norm_num : (2 : ℚ) ≠ 0)]
    simp
  constructor
  · rw [zpow_add₀ (by norm_num : (2 : ℚ) ≠ 0), hx]
    exact mul_le_mul_of_nonneg_right h1 hpos.le
  · rw [zpow_add₀ (by norm_num : (2 : ℚ) ≠ 0)]
    calc x = x * 2 ^ (-e) * 2 ^ e := hx
      _ < 2 ^ b * 2 ^ e := mul_lt_mul_of_pos_right h2 hpos

/-- The rounding of a number in the normal range of float64: the result is
finite, its exponent `e` puts `x * 2^(-e)` in `[2^52, 2^53)`, and its
mantissa is within one half of `x * 2^(-e)`. -/
theorem roundFloat64_spec (neg : Bool) (n d : Nat) (hn : 0 < n) (hd : 0 < d)
    (hlo : (2 : ℚ) ^ (-1022 : Int) ≤ (n : ℚ) / d) (hhi : (n : ℚ) / d < (2 : ℚ) ^ (1023 : Int)) :
    ∃ (m : Nat) (e : Int), roundFloat64 neg n d = (.fin neg m e, false) ∧
      (2 : ℚ) ^ (52 : Int) ≤ (n : ℚ) / d * 2 ^ (-e) ∧ (n : ℚ) / d * 2 ^ (-e) < (2 : ℚ) ^ (53 : Int) ∧
      |(m : ℚ) - (n : ℚ) / d * 2 ^ (-e)| ≤ 1 / 2 := by
  have h2 : (2 : ℚ) ≠ 0 := by norm_num
  have hnq : (0 : ℚ) < n := by exact_mod_cast hn
  have hdq : (0 : ℚ) < d := by exact_mod_cast hd
  obtain ⟨hn1, hn2, hn3⟩ := bitLen_spec n hn
  obtain ⟨hd1, hd2, hd3⟩ := bitLen_spec d hd
  set x : ℚ := (n : ℚ) / d with hx
  have hxpos : 0 < x := div_pos hnq hdq
  set e0 : Int := (bitLen n : Int) - (bitLen d : Int) - 53 with he0
  -- the bounds of x from the bit lengths
  have hn1q : (2 : ℚ) ^ ((bitLen n : Int) - 1) ≤ n := by
    have : ((bitLen n : Int) - 1) = ((bitLen n - 1 : Nat) : Int) := by omega
    rw [this, zpow_natCast]
    exact_mod_cast hn1
  have hn2q : (n : ℚ) < (2 : ℚ) ^ (bitLen n : Int) := by
    rw [zpow_natCast]
    exact_mod_cast hn2
  have hd1q : (2 : ℚ) ^ ((bitLen d : Int) - 1) ≤ d := by
    have : ((bitLen d : Int) - 1) = ((bitLen d - 1 : Nat) : Int) := by omega
    rw [this, zpow_natCast]
    exact_mod_cast hd1
  have hd2q : (d : ℚ) < (2 : ℚ) ^ (bitLen d : Int) := by
    rw [zpow_natCast]
    exact_mod_cast hd2
  have hxlo : (2 : ℚ) ^ (e0 + 52) < x := by
    rw [hx, lt_div_iff₀ hdq]
    calc (2 : ℚ) ^ (e0 + 52) * d < 2 ^ (e0 + 52) * 2 ^ (bitLen d : Int) :=
          mul_lt_mul_of_pos_left hd2q (two_zpow_pos _)
      _ = 2 ^ ((bitLen n : Int) - 1) := by
          rw [← zpow_add₀ h2]; congr 1; omega
      _ ≤ n := hn1q
  have hxhi : x < (2 : ℚ) ^ (e0 + 54) := by
    rw [hx, div_lt_iff₀ hdq]
    calc (n : ℚ) < 2 ^ (bitLen n : Int) := hn2q
      _ = 2 ^ (e0 + 54) * 2 ^ ((bitLen d : Int) - 1) := by
          rw [← zpow_add₀ h2]; congr 1; omega
      _ ≤ 2 ^ (e0 + 54) * d := mul_le_mul_of_nonneg_left hd1q (two_zpow_pos _).le
  -- the choice between e0 and e0 + 1
  obtain ⟨hD0, hr0⟩ := scale2_spec n d hd e0
  have hD0q : (0 : ℚ) < ((scale2 n d e0).2 : ℚ) := by exact_mod_cast hD0
  have hcond : (2 ^ 53 * (scale2 n d e0).2 ≤ (scale2 n d e0).1) ↔
      (2 : ℚ) ^ (53 : Int) ≤ x * 2 ^ (-e0) := by
    rw [← hr0, le_div_iff₀ hD0q]
    have : ((2 : ℚ) ^ (53 : Int)) = ((2 ^ 53 : Nat) : ℚ) := by norm_num
    rw [this]
    exact_mod_cast Iff.rfl
  have hsc : ∀ k : Int, x * (2 : ℚ) ^ (-(e0 + 1)) * 2 = x * 2 ^ (-e0) := by
    intro k
    have : (-e0 : Int) = -(e0 + 1) + 1 := by omega
    rw [this, zpow_add₀ h2, zpow_one, mul_assoc]
  have ht0lo : (2 : ℚ) ^ (52 : Int) < x * 2 ^ (-e0) := by
    have := mul_lt_mul_of_pos_right hxlo (two_zpow_pos (-e0))
    rw [← zpow_add₀ h2] at this
    have h52 : e0 + 52 + -e0 = 52 := by omega
    rwa [h52] at this
  have ht0hi : x * 2 ^ (-e0) < (2 : ℚ) ^ (54 : Int) := by
    have := mul_lt_mul_of_pos_right hxhi (two_zpow_pos (-e0))
    rw [← zpow_add₀ h2] at this
    have h54 : e0 + 54 + -e0 = 54 := by omega
    rwa [h54] at this
  -- e1 and its bounds
  obtain ⟨e1, he1def, ht1lo, ht1hi⟩ : ∃ e1 : Int,
      (if 2 ^ 53 * (scale2 n d e0).2 ≤ (scale2 n d e0).1 then e0 + 1 else e0) = e1 ∧
      (2 : ℚ) ^ (52 : Int) ≤ x * 2 ^ (-e1) ∧ x * 2 ^ (-e1) < (2 : ℚ) ^ (53 : Int) := by
    by_cases hc : 2 ^ 53 * (scale2 n d e0).2 ≤ (scale2 n d e0).1
    · have hp53 : (2 : ℚ) ^ (53 : Int) = 2 ^ (52 : Int) * 2 := by norm_num
      have hp54 : (2 : ℚ) ^ (54 : Int) = 2 ^ (53 : Int) * 2 := by norm_num
      have h53 := hcond.mp hc
      have hs := hsc 0
      refine ⟨e0 + 1, if_pos hc, ?_, ?_⟩
      · rw [hp53, ← hs] at h53
        linarith
      · rw [hp54, ← hs] at ht0hi
        linarith
    · refine ⟨e0, if_neg hc, ht0lo.le, ?_⟩
      have := (not_congr hcond).mp hc
      exact not_le.mp this
  obtain ⟨hb1, hb2⟩ := of_scaled_bounds x e1 52 53 ht1lo ht1hi
  have hge : -1074 ≤ e1 := by
    have : (2 : ℚ) ^ (-1022 : Int) < 2 ^ (53 + e1) := lt_of_le_of_lt hlo hb2
    rw [zpow_lt_zpow_iff_right₀ (by norm_num : (1 : ℚ) < 2)] at this
    omega
  have hle : e1 ≤ 970 := by
    have : (2 : ℚ) ^ (52 + e1) < 2 ^ (1023 : Int) := lt_of_le_of_lt hb1 hhi
    rw [zpow_lt_zpow_iff_right₀ (by norm_num : (1 : ℚ) < 2)] at this
    omega
  obtain ⟨hD1, hr1⟩ := scale2_spec n d hd e1
  refine ⟨divRoundEven (scale2 n d e1).1 (scale2 n d e1).2, e1, ?_, ht1lo, ht1hi, ?_⟩
  · unfold roundFloat64
    rw [if_neg (by omega)]
    simp only []
    rw [← he0, he1def, max_eq_left hge]
    rw [if_neg (by omega)]
  · rw [← hr1]
    exact divRoundEven_spec _ _ hD1

theorem ceil_div_nat (m D : Nat) (hD : 0 < D) :
    ⌈(m : ℚ) / (D : ℚ)⌉ = (((m + D - 1) / D : Nat) : Int) := by
  have hDq : (0 : ℚ) < D := by exact_mod_cast hD
  rw [Int.ceil_eq_iff]
  have h1 := Nat.div_add_mod (m + D - 1) D
  have h2 := Nat.mod_lt (m + D - 1) hD
  set q := (m + D - 1) / D with hq
  set r := (m + D - 1) % D with hr
  have hle : m ≤ D * q := by omega
  have hlt : D * q < m + D := by omega
  have hleq : (m : ℚ) ≤ (D : ℚ) * q := by exact_mod_cast hle
  have hltq : (D : ℚ) * q < m + D := by exact_mod_cast hlt
  constructor
  · rw [lt_div_iff₀ hDq]
    push_cast
    linarith
  · rw [div_le_iff₀ hDq]
    push_cast
    linarith

theorem zpow_toNat_of_nonneg (e : Int) (h : 0 ≤ e) : (2 : ℚ) ^ e = ((2 ^ e.toNat : Nat) : ℚ) := by
  have he : (e.toNat : Int) = e := Int.toNat_of_nonneg h
  have h1 : (2 : ℚ) ^ e = (2 : ℚ) ^ (e.toNat : Int) := by rw [he]
  rw [h1, zpow_natCast]
  push_cast
  rfl

theorem zpow_toNat_of_neg (e : Int) (h : e < 0) :
    (2 : ℚ) ^ e = 1 / ((2 ^ (-e).toNat : Nat) : ℚ) := by
  have he : ((-e).toNat : Int) = -e := Int.toNat_of_nonneg (by omega)
  have h1 : (2 : ℚ) ^ e = ((2 : ℚ) ^ ((-e).toNat : Int))⁻¹ := by
    rw [← zpow_neg, he, neg_neg]
  rw [h1, zpow_natCast]
  push_cast
  rw [one_div]

/-- `int(math.Ceil(f))` of a finite float64 `f >= 0` is the ceiling of its
value when that is below `2^31`. -/
theorem toInt_Ceil (impl : GoImpl) (m : Nat) (e : Int)
    (hsmall : ⌈(m : ℚ) * (2 : ℚ) ^ e⌉ < 2147483648) :
    (Ceil (.fin false m e)).toInt impl = ⌈(m : ℚ) * (2 : ℚ) ^ e⌉ := by
  by_cases he : 0 ≤ e
  · have hval : (m : ℚ) * (2 : ℚ) ^ e = ((m * 2 ^ e.toNat : Nat) : ℚ) := by
      rw [zpow_toNat_of_nonneg e he]; push_cast; ring
    rw [hval, Int.ceil_natCast] at hsmall ⊢
    simp only [Ceil, if_pos he, F64.toInt, Bool.false_eq_true, if_false]
    rw [if_pos]
    constructor
    · have : (0 : Int) ≤ ((m * 2 ^ e.toNat : Nat) : Int) := Int.natCast_nonneg _
      have : (0 : Int) ≤ 2 ^ (impl.intSize.bits - 1) := by positivity
      linarith
    · have : (2147483648 : Int) ≤ 2 ^ (impl.intSize.bits - 1) := by
        cases impl.intSize <;> simp [IntSize.bits]
      linarith
  · have he' : e < 0 := not_le.mp he
    have hval : (m : ℚ) * (2 : ℚ) ^ e = (m : ℚ) / ((2 ^ (-e).toNat : Nat) : ℚ) := by
      rw [zpow_toNat_of_neg e he']; ring
    have hpos : 0 < 2 ^ (-e).toNat := by positivity
    rw [hval, ceil_div_nat m _ hpos] at hsmall ⊢
    simp only [Ceil, if_neg he, F64.toInt, Bool.false_eq_true, if_false, le_refl, if_true,
      Int.toNat_zero, pow_zero, mul_one]
    rw [if_pos]
    constructor
    · have : (0 : Int) ≤ (((m + 2 ^ (-e).toNat - 1) / 2 ^ (-e).toNat : Nat) : Int) :=
        Int.natCast_nonneg _
      have : (0 : Int) ≤ 2 ^ (impl.intSize.bits - 1) := by positivity
      linarith
    · have : (2147483648 : Int) ≤ 2 ^ (impl.intSize.bits - 1) := by
        cases impl.intSize <;> simp [IntSize.bits]
      linarith

/-- The relative error of a rounding: at most `2^-53`. -/
theorem round_rel_err (x : ℚ) (m : Nat) (e : Int)
    (hlo : (2 : ℚ) ^ (52 : Int) ≤ x * 2 ^ (-e))
    (hm : |(m : ℚ) - x * 2 ^ (-e)| ≤ 1 / 2) :
    |(m : ℚ) * 2 ^ e - x| ≤ x / 2 ^ 53 := by
  have hpos := two_zpow_pos e
  have hinv : (2 : ℚ) ^ (-e) * 2 ^ e = 1 := by
    rw [← zpow_add₀ (by norm_num : (2 : ℚ) ≠ 0)]; simp
  have hx' : x = x * 2 ^ (-e) * 2 ^ e := by rw [mul_assoc, hinv, mul_one]
  have h1 : (m : ℚ) * 2 ^ e - x = ((m : ℚ) - x * 2 ^ (-e)) * 2 ^ e := by
    rw [sub_mul, ← hx']
  rw [h1, abs_mul, abs_of_pos hpos]
  have h52 : (2 : ℚ) ^ (52 : Int) = 2 ^ 52 := by norm_num
  rw [h52] at hlo
  have h3 : (2 : ℚ) ^ e ≤ x / 2 ^ 52 := by
    rw [le_div_iff₀ (by positivity)]
    calc (2 : ℚ) ^ e * 2 ^ 52 ≤ 2 ^ e * (x * 2 ^ (-e)) := by
          apply mul_le_mul_of_nonneg_left hlo hpos.le
      _ = x * (2 ^ (-e) * 2 ^ e) := by ring
      _ = x := by rw [hinv, mul_one]
  calc |(m : ℚ) - x * 2 ^ (-e)| * 2 ^ e ≤ 1 / 2 * 2 ^ e :=
        mul_le_mul_of_nonneg_right hm hpos.le
    _ ≤ 1 / 2 * (x / 2 ^ 52) := by linarith
    _ = x / 2 ^ 53 := by ring

/-! ### The bonus of a price of a given number of hundredths -/

theorem nat_eq_of_abs_lt_one (a b : Nat) (h : |(a : ℚ) - (b : ℚ)| < 1) : a = b := by
  rw [abs_lt] at h
  by_contra hne
  rcases Nat.lt_or_gt_of_ne hne with hlt | hgt
  · have : (a : ℚ) + 1 ≤ b := by exact_mod_cast hlt
    linarith
  · have : (b : ℚ) + 1 ≤ a := by exact_mod_cast hgt
    linarith

theorem const02_eq : const02 = .fin false 7205759403792794 (-55) := by decide!

theorem mul_const02 (m1 : Nat) (e1 : Int) :
    (F64.fin false m1 e1).mul const02 =
      (roundFloat64 false (scale2 (m1 * 7205759403792794) 1 (-(e1 + -55))).1
        (scale2 (m1 * 7205759403792794) 1 (-(e1 + -55))).2).1 := by
  rw [const02_eq]
  rfl

/-- The ceiling survives two roundings when the exact value is not an integer:
a number of cents `n` that is not a multiple of 500. -/
theorem ceil_of_inexact (n : Nat) (P z Y : ℚ) (hn : n < 10 ^ 11) (hr : n % 500 ≠ 0)
    (h1 : |P - (n : ℚ) / 100| ≤ (n : ℚ) / 100 / 2 ^ 53)
    (hz : z = P * (7205759403792794 / 2 ^ 55))
    (h2 : |Y - z| ≤ z / 2 ^ 53) :
    ⌈Y⌉ = ⌈(n : ℚ) / 500⌉ := by
  have hdm := Nat.div_add_mod n 500
  have hlt := Nat.mod_lt n (show 0 < 500 by norm_num)
  set k := n / 500 with hk
  set r := n % 500 with hrdef
  have hnq : (n : ℚ) = 500 * (k : ℚ) + (r : ℚ) := by exact_mod_cast hdm.symm
  have hr1 : (1 : ℚ) ≤ r := by
    have : 1 ≤ r := by omega
    exact_mod_cast this
  have hr2 : (r : ℚ) ≤ 499 := by
    have : r ≤ 499 := by omega
    exact_mod_cast this
  have hk0 : (0 : ℚ) ≤ k := by positivity
  have hk1 : (k : ℚ) ≤ 200000000 := by
    have : k ≤ 200000000 := by
      have : n < 100000000000 := by norm_num at hn; exact hn
      omega
    exact_mod_cast this
  rw [abs_le] at h1 h2
  obtain ⟨h1a, h1b⟩ := h1
  obtain ⟨h2a, h2b⟩ := h2
  rw [hz] at h2a h2b
  rw [hnq] at h1a h1b
  have hY : (k : ℚ) < Y ∧ Y ≤ (k : ℚ) + 1 := by
    norm_num at h1a h1b h2a h2b
    constructor <;> linarith
  have e1 : ⌈Y⌉ = (k : Int) + 1 := by
    rw [Int.ceil_eq_iff]
    push_cast
    constructor <;> linarith [hY.1, hY.2]
  have e2 : ⌈(n : ℚ) / 500⌉ = (k : Int) + 1 := by
    rw [Int.ceil_eq_iff, hnq]
    push_cast
    constructor <;> linarith
  rw [e1, e2]

theorem zpow_neg_mul_self (e : Int) : (2 : ℚ) ^ (-e) * 2 ^ e = 1 := by
  rw [← zpow_add₀ (by norm_num : (2 : ℚ) ≠ 0)]
  simp

/-- A rounding returns a number that needs no rounding: if `t` is within less
than one half above the natural number `K`, the mantissa nearest to `t` is
`K`. -/
theorem mantissa_eq (m K : Nat) (t : ℚ) (hm : |(m : ℚ) - t| ≤ 1 / 2)
    (ht1 : (K : ℚ) ≤ t) (ht2 : t < (K : ℚ) + 1 / 2) : m = K := by
  apply nat_eq_of_abs_lt_one
  rw [abs_le] at hm
  rw [abs_lt]
  constructor <;> linarith [hm.1, hm.2]

/-- The exponent of a rounding of a number below `2^31` is negative. -/
theorem exponent_neg (x : ℚ) (e : Int) (hx : x < 2 ^ 31)
    (hlo : (2 : ℚ) ^ (52 : Int) ≤ x * 2 ^ (-e)) : e < 0 := by
  have hpos := two_zpow_pos e
  have hinv := zpow_neg_mul_self e
  have h1 : (2 : ℚ) ^ ((52 : Int) + e) ≤ x := by
    rw [zpow_add₀ (by norm_num : (2 : ℚ) ≠ 0)]
    calc (2 : ℚ) ^ (52 : Int) * 2 ^ e ≤ x * 2 ^ (-e) * 2 ^ e :=
          mul_le_mul_of_nonneg_right hlo hpos.le
      _ = x := by rw [mul_assoc, hinv, mul_one]
  have h2 : (2 : ℚ) ^ ((52 : Int) + e) < (2 : ℚ) ^ (31 : Int) := by
    have : (2 : ℚ) ^ (31 : Int) = 2 ^ 31 := by norm_num
    rw [this]
    exact lt_of_le_of_lt h1 hx
  rw [zpow_lt_zpow_iff_right₀ (by norm_num : (1 : ℚ) < 2)] at h2
  omega

/-- The value after two roundings when the number of cents is `500 * k`: the
first rounding is exact, the product with the constant is `k * (1 + 2^-54)`,
and the second rounding gives `k`. -/
theorem value_of_exact (k m1 m2 : Nat) (e1 e2 : Int) (hk2 : k < 2 ^ 28)
    (hlo1 : (2 : ℚ) ^ (52 : Int) ≤ (5 * k : ℚ) * 2 ^ (-e1))
    (hm1 : |(m1 : ℚ) - (5 * k : ℚ) * 2 ^ (-e1)| ≤ 1 / 2)
    (hlo2 : (2 : ℚ) ^ (52 : Int) ≤
      ((m1 : ℚ) * 2 ^ e1 * (7205759403792794 / 2 ^ 55)) * 2 ^ (-e2))
    (hhi2 : ((m1 : ℚ) * 2 ^ e1 * (7205759403792794 / 2 ^ 55)) * 2 ^ (-e2) < (2 : ℚ) ^ (53 : Int))
    (hm2 : |(m2 : ℚ) - ((m1 : ℚ) * 2 ^ e1 * (7205759403792794 / 2 ^ 55)) * 2 ^ (-e2)| ≤ 1 / 2) :
    (m2 : ℚ) * 2 ^ e2 = k := by
  have hk0 : (0 : ℚ) ≤ k := by positivity
  have hk2q : (k : ℚ) < 268435456 := by
    have : k < 268435456 := by norm_num at hk2; exact hk2
    exact_mod_cast this
  -- the first rounding is exact
  have he1 : e1 < 0 := exponent_neg (5 * k : ℚ) e1 (by norm_num; linarith) hlo1
  have hT1 : (5 * k : ℚ) * 2 ^ (-e1) = ((5 * k * 2 ^ (-e1).toNat : Nat) : ℚ) := by
    rw [zpow_toNat_of_nonneg (-e1) (by omega)]
    push_cast
    ring
  have hm1eq : m1 = 5 * k * 2 ^ (-e1).toNat := by
    apply nat_eq_of_abs_lt_one
    rw [← hT1]
    exact lt_of_le_of_lt hm1 (by norm_num)
  have hP : (m1 : ℚ) * 2 ^ e1 = 5 * k := by
    rw [hm1eq, ← hT1, mul_assoc, zpow_neg_mul_self, mul_one]
  rw [hP] at hlo2 hhi2 hm2
  have hz : (5 * k : ℚ) * (7205759403792794 / 2 ^ 55) = (k : ℚ) + (k : ℚ) / 2 ^ 54 := by
    norm_num
    ring
  rw [hz] at hlo2 hhi2 hm2
  -- the second rounding
  have he2 : e2 < 0 :=
    exponent_neg ((k : ℚ) + (k : ℚ) / 2 ^ 54) e2 (by norm_num; linarith) hlo2
  have hK : (k : ℚ) * 2 ^ (-e2) = ((k * 2 ^ (-e2).toNat : Nat) : ℚ) := by
    rw [zpow_toNat_of_nonneg (-e2) (by omega)]
    push_cast
    ring
  have ht2 : ((k : ℚ) + (k : ℚ) / 2 ^ 54) * 2 ^ (-e2) =
      ((k * 2 ^ (-e2).toNat : Nat) : ℚ) + ((k * 2 ^ (-e2).toNat : Nat) : ℚ) / 2 ^ 54 := by
    rw [← hK]
    ring
  rw [ht2] at hlo2 hhi2 hm2
  have hK0 : (0 : ℚ) ≤ ((k * 2 ^ (-e2).toNat : Nat) : ℚ) := by positivity
  have h53 : (2 : ℚ) ^ (53 : Int) = 2 ^ 53 := by norm_num
  rw [h53] at hhi2
  have hm2eq : m2 = k * 2 ^ (-e2).toNat := by
    apply mantissa_eq m2 _ _ hm2
    · have : (0 : ℚ) ≤ ((k * 2 ^ (-e2).toNat : Nat) : ℚ) / 2 ^ 54 := by positivity
      linarith
    · have : ((k * 2 ^ (-e2).toNat : Nat) : ℚ) / 2 ^ 54 < 1 / 2 := by
        rw [div_lt_iff₀ (by positivity)]
        have : (0 : ℚ) ≤ ((k * 2 ^ (-e2).toNat : Nat) : ℚ) / 2 ^ 54 := by positivity
        norm_num at hhi2 ⊢
        linarith
      linarith
  rw [hm2eq, ← hK, mul_assoc, zpow_neg_mul_self, mul_one]

theorem roundFloat64_zero (neg : Bool) (d : Nat) :
    roundFloat64 neg 0 d = (.fin neg 0 0, false) := by
  simp [roundFloat64]

theorem scale2_zero (d : Nat) (e : Int) : (scale2 0 d e).1 = 0 := by
  unfold scale2
  split_ifs <;> simp

/-- The bonus of a price that `ParseFloat` reads as `n` hundredths, `n` below
`10^11`: the exact ceiling of `n / 500`. -/
theorem priceBonus_of_cents (impl : GoImpl) (price : GoString) (n : Nat) (hn : n < 10 ^ 11)
    (hparse : (ParseFloat price).1 = (roundFloat64 false n 100).1) :
    priceBonus impl price = ⌈(n : ℚ) / 500⌉ := by
  rw [priceBonus, hparse]
  rcases Nat.eq_zero_or_pos n with h0 | hpos
  · subst h0
    rw [roundFloat64_zero, mul_const02, Nat.zero_mul, scale2_zero, roundFloat64_zero]
    simp [Ceil, F64.toInt]
  have hnq : (1 : ℚ) ≤ n := by exact_mod_cast hpos
  have hnq2 : (n : ℚ) < 100000000000 := by
    have : n < 100000000000 := by norm_num at hn; exact hn
    exact_mod_cast this
  have hx : ((100 : Nat) : ℚ) = 100 := by norm_num
  -- the first rounding
  obtain ⟨m1, e1, hr1, hlo1, hhi1, hm1⟩ := roundFloat64_spec false n 100 hpos (by norm_num)
    (by
      rw [hx]
      have : (2 : ℚ) ^ (-1022 : Int) ≤ 2 ^ (-7 : Int) :=
        zpow_le_zpow_right₀ (by norm_num) (by norm_num)
      have h7 : (2 : ℚ) ^ (-7 : Int) = 1 / 128 := by norm_num
      rw [h7] at this
      have : (1 : ℚ) / 128 ≤ n / 100 := by
        rw [div_le_div_iff₀ (by norm_num) (by norm_num)]
        linarith
      linarith)
    (by
      rw [hx]
      have : (2 : ℚ) ^ (31 : Int) ≤ 2 ^ (1023 : Int) :=
        zpow_le_zpow_right₀ (by norm_num) (by norm_num)
      have h31 : (2 : ℚ) ^ (31 : Int) = 2147483648 := by norm_num
      rw [h31] at this
      have : (n : ℚ) / 100 < 2147483648 := by
        rw [div_lt_iff₀ (by norm_num)]
        linarith
      linarith)
  rw [hx] at hlo1 hhi1 hm1
  have herr1 := round_rel_err ((n : ℚ) / 100) m1 e1 hlo1 hm1
  rw [hr1, mul_const02]
  -- the product with the constant
  obtain ⟨hD, hratio⟩ := scale2_spec (m1 * 7205759403792794) 1 (by norm_num) (-(e1 + -55))
  set N2 := (scale2 (m1 * 7205759403792794) 1 (-(e1 + -55))).1 with hN2
  set D2 := (scale2 (m1 * 7205759403792794) 1 (-(e1 + -55))).2 with hD2
  have hz : (N2 : ℚ) / D2 = (m1 : ℚ) * 2 ^ e1 * (7205759403792794 / 2 ^ 55) := by
    rw [hratio]
    have : (-(-(e1 + -55)) : Int) = e1 + -55 := by omega
    rw [this, zpow_add₀ (by norm_num : (2 : ℚ) ≠ 0)]
    have h55 : (2 : ℚ) ^ (-55 : Int) = 1 / 2 ^ 55 := by norm_num
    rw [h55]
    push_cast
    ring
  have hP := abs_le.mp herr1
  have hzlo : (1 : ℚ) / 1024 ≤ (N2 : ℚ) / D2 := by
    rw [hz]
    have := hP.1
    norm_num at this ⊢
    linarith
  have hzhi : (N2 : ℚ) / D2 < 1073741824 := by
    rw [hz]
    have := hP.2
    norm_num at this ⊢
    linarith
  have hDq : (0 : ℚ) < D2 := by exact_mod_cast hD
  have hN2pos : 0 < N2 := by
    rcases Nat.eq_zero_or_pos N2 with h | h
    · rw [h] at hzlo
      norm_num at hzlo
    · exact h
  obtain ⟨m2, e2, hr2, hlo2, hhi2, hm2⟩ := roundFloat64_spec false N2 D2 hN2pos hD
    (by
      have : (2 : ℚ) ^ (-1022 : Int) ≤ 2 ^ (-10 : Int) :=
        zpow_le_zpow_right₀ (by norm_num) (by norm_num)
      have h10 : (2 : ℚ) ^ (-10 : Int) = 1 / 1024 := by norm_num
      rw [h10] at this
      linarith)
    (by
      have : (2 : ℚ) ^ (30 : Int) ≤ 2 ^ (1023 : Int) :=
        zpow_le_zpow_right₀ (by norm_num) (by norm_num)
      have h30 : (2 : ℚ) ^ (30 : Int) = 1073741824 := by norm_num
      rw [h30] at this
      linarith)
  have hzpos : (0 : ℚ) < (N2 : ℚ) / D2 := by linarith
  have herr2 := round_rel_err ((N2 : ℚ) / D2) m2 e2 hlo2 hm2
  rw [hr2]
  -- the ceiling of the result
  have hceil : ⌈(m2 : ℚ) * 2 ^ e2⌉ = ⌈(n : ℚ) / 500⌉ := by
    by_cases hr : n % 500 = 0
    · obtain ⟨k, hk⟩ := Nat.dvd_of_mod_eq_zero hr
      have hkn : (n : ℚ) = 500 * (k : ℚ) := by exact_mod_cast hk
      have hk2 : k < 2 ^ 28 := by
        have : n < 100000000000 := by norm_num at hn; exact hn
        norm_num
        omega
      have hx5 : (n : ℚ) / 100 = 5 * (k : ℚ) := by rw [hkn]; ring
      rw [hx5] at hlo1 hm1
      rw [hz] at hlo2 hhi2 hm2
      rw [value_of_exact k m1 m2 e1 e2 hk2 hlo1 hm1 hlo2 hhi2 hm2, hkn]
      have : (500 * (k : ℚ)) / 500 = ((k : Int) : ℚ) := by push_cast; ring
      rw [this, Int.ceil_intCast]
      exact_mod_cast Int.ceil_natCast k
    · exact ceil_of_inexact n _ _ _ hn hr herr1 hz herr2
  have hsmall : ⌈(m2 : ℚ) * 2 ^ e2⌉ < 2147483648 := by
    rw [hceil, Int.ceil_lt_iff]
    push_cast
    rw [div_le_iff₀ (by norm_num)]
    linarith
  rw [toInt_Ceil impl m2 e2 hsmall, hceil]

/-! ### `ParseFloat` and the decimal reading of a price with two decimals -/

theorem lower_digit (c : Nat) (h1 : 46 ≤ c) (h2 : c ≤ 57) : lower c = c := by
  unfold lower
  have : c / 32 = 1 := by omega
  rw [this]
  simp

theorem readMantissa_digits (ds : List Nat) (hds : ∀ c ∈ ds, isDigit c = true)
    (rest : List Nat) (st : Mantissa) :
    readMantissa false (ds ++ rest) st =
      readMantissa false rest
        { st with sawdigits := st.sawdigits || !ds.isEmpty,
                  mantissa := ds.foldl (fun n c => n * 10 + (c - 48)) st.mantissa,
                  fracDigits := if st.sawdot then st.fracDigits + ds.length else st.fracDigits } := by
  induction ds generalizing st with
  | nil => simp
  | cons c cs ih =>
    have hc : isDigit c = true := hds c (List.mem_cons_self _ _)
    have hc' := hc
    simp only [isDigit, Bool.and_eq_true, decide_eq_true_eq] at hc'
    have h95 : c ≠ 95 := by omega
    have h46 : c ≠ 46 := by omega
    rw [List.cons_append, readMantissa, if_neg h95, if_neg h46, if_pos hc,
      ih (fun x hx => hds x (List.mem_cons_of_mem _ hx))]
    congr 1
    cases st with
    | mk mantissa fracDigits sawdot sawdigits underscores =>
      cases sawdot
      · simp [List.foldl_cons]
      · simp [List.foldl_cons]
        omega

theorem special_digit (c : Nat) (t : List Nat) (hc : isDigit c = true) :
    special (c :: t) = none := by
  simp only [isDigit, Bool.and_eq_true, decide_eq_true_eq] at hc
  have h1 : ¬ (c = 43 ∨ c = 45) := by omega
  have h2 : ¬ (c = 105 ∨ c = 73) := by omega
  have h3 : ¬ (c = 110 ∨ c = 78) := by omega
  simp only [special, if_neg h1, if_neg h2, if_neg h3]

/-- `ParseFloat` on digits, a point and two digits: the float64 nearest to
the number of hundredths over 100. -/
theorem ParseFloat_two_decimals (ds : List Nat) (a b : Nat) (hne : ds ≠ [])
    (hds : ∀ c ∈ ds, isDigit c = true) (ha : isDigit a = true) (hb : isDigit b = true) :
    (ParseFloat (ds ++ [46, a, b])).1 = (roundFloat64 false (digitsValue (ds ++ [a, b])) 100).1 := by
  obtain ⟨c0, t0, rfl⟩ := List.exists_cons_of_ne_nil hne
  have hc0 : isDigit c0 = true := hds c0 (List.mem_cons_self _ _)
  have hc0' := hc0
  simp only [isDigit, Bool.and_eq_true, decide_eq_true_eq] at hc0'
  have hab : ∀ c ∈ [a, b], isDigit c = true := by
    intro c hc
    simp only [List.mem_cons, List.mem_singleton, List.not_mem_nil, or_false] at hc
    rcases hc with rfl | rfl
    · exact ha
    · exact hb
  -- the mantissa loop
  have hmant : readMantissa false (c0 :: t0 ++ [46, a, b]) ⟨0, 0, false, false, false⟩ =
      (⟨digitsValue (c0 :: t0 ++ [a, b]), 2, true, true, false⟩, []) := by
    rw [readMantissa_digits (c0 :: t0) hds]
    rw [readMantissa, if_neg (by norm_num), if_pos rfl]
    simp only [Bool.false_eq_true, if_false]
    have := readMantissa_digits [a, b] hab []
    simp only [List.append_nil] at this
    rw [this]
    simp [readMantissa, digitsValue, List.foldl_append]
  -- no base prefix
  have hhex : (match c0 :: t0 ++ [46, a, b] with
      | x :: y :: _ :: _ => decide (x = 48 ∧ lower y = 120)
      | _ => false) = false := by
    cases t0 with
    | nil =>
      simp only [List.cons_append, List.nil_append]
      rw [lower_digit 46 (by norm_num) (by norm_num)]
      simp
    | cons c1 t1 =>
      have hc1 : isDigit c1 = true := hds c1 (by simp)
      simp only [isDigit, Bool.and_eq_true, decide_eq_true_eq] at hc1
      simp only [List.cons_append]
      cases t1 with
      | nil =>
        simp only [List.nil_append]
        rw [lower_digit c1 (by omega) (by omega)]
        simp
        omega
      | cons c2 t2 =>
        simp only [List.cons_append]
        rw [lower_digit c1 (by omega) (by omega)]
        simp
        omega
  have hread : readFloat (c0 :: t0 ++ [46, a, b]) =
      some ⟨digitsValue (c0 :: t0 ++ [a, b]), -2, false, false, []⟩ := by
    have h1 : ¬ (c0 = 43 ∨ c0 = 45) := by omega
    have h2 : c0 ≠ 45 := by omega
    rw [List.cons_append] at hmant hhex ⊢
    simp only [readFloat, if_neg h1]
    rw [hhex]
    simp only [Bool.false_eq_true, if_false]
    rw [hmant]
    simp [h2]
  rw [List.cons_append] at hread ⊢
  rw [ParseFloat, special_digit c0 _ hc0]
  simp only [hread]
  simp

theorem specDigits_digits (ds : List Nat) (hds : ∀ c ∈ ds, isDigit c = true) (n : Nat) :
    specDigits ds n = some (ds.foldl (fun n c => n * 10 + (c - 48)) n) := by
  induction ds generalizing n with
  | nil => rfl
  | cons c cs ih =>
    rw [specDigits, if_pos (hds c (List.mem_cons_self _ _)),
      ih (fun x hx => hds x (List.mem_cons_of_mem _ hx)), List.foldl_cons]

theorem takeWhile_digits (ds rest : List Nat) (hds : ∀ c ∈ ds, isDigit c = true) :
    (ds ++ 46 :: rest).takeWhile (fun c => decide (c ≠ 46)) = ds ∧
    (ds ++ 46 :: rest).dropWhile (fun c => decide (c ≠ 46)) = 46 :: rest := by
  induction ds with
  | nil => simp
  | cons c cs ih =>
    have hc := hds c (List.mem_cons_self _ _)
    simp only [isDigit, Bool.and_eq_true, decide_eq_true_eq] at hc
    have h46 : c ≠ 46 := by omega
    obtain ⟨ih1, ih2⟩ := ih (fun x hx => hds x (List.mem_cons_of_mem _ hx))
    have hd : decide (c ≠ 46) = true := by simp [h46]
    simp only [List.cons_append, List.takeWhile_cons, List.dropWhile_cons, hd, if_true, ih1, ih2,
      and_self]

theorem digitsValue_append_two (ds : List Nat) (a b : Nat) :
    digitsValue (ds ++ [a, b]) = digitsValue ds * 100 + ((a - 48) * 10 + (b - 48)) := by
  simp only [digitsValue, List.foldl_append, List.foldl_cons, List.foldl_nil]
  ring

/-- The price written as digits, a point and two digits, read as a decimal
number: its number of hundredths over 100. -/
theorem specDecimal_two_decimals (ds : List Nat) (a b : Nat) (hne : ds ≠ [])
    (hds : ∀ c ∈ ds, isDigit c = true) (ha : isDigit a = true) (hb : isDigit b = true) :
    specDecimal (ds ++ [46, a, b]) = some ((digitsValue (ds ++ [a, b]) : ℚ) / 100) := by
  obtain ⟨h1, h2⟩ := takeWhile_digits ds [a, b] hds
  have hab : ∀ c ∈ [a, b], isDigit c = true := by
    intro c hc
    simp only [List.mem_cons, List.mem_singleton, List.not_mem_nil, or_false] at hc
    rcases hc with rfl | rfl
    · exact ha
    · exact hb
  simp only [specDecimal, h1, h2, if_neg hne, List.drop_succ_cons, List.drop_zero,
    specDigits_digits ds hds, specDigits_digits [a, b] hab]
  rw [digitsValue_append_two]
  simp only [digitsValue, List.foldl_cons, List.foldl_nil, List.length_cons, List.length_nil]
  congr 1
  push_cast
  ring

/-- The bonus of a price written as digits, a point and two digits, below one
billion: the exact ceiling of 0.2 times the price. -/
theorem priceBonus_two_decimals (impl : GoImpl) (ds : List Nat) (a b : Nat) (hne : ds ≠ [])
    (hds : ∀ c ∈ ds, isDigit c = true) (ha : isDigit a = true) (hb : isDigit b = true)
    (hlt : digitsValue ds < 10 ^ 9) :
    priceBonus impl (ds ++ [46, a, b]) =
      ⌈(2 / 10 : ℚ) * ((digitsValue (ds ++ [a, b]) : ℚ) / 100)⌉ := by
  have hn : digitsValue (ds ++ [a, b]) < 10 ^ 11 := by
    rw [digitsValue_append_two]
    simp only [isDigit, Bool.and_eq_true, decide_eq_true_eq] at ha hb
    norm_num at hlt ⊢
    omega
  rw [priceBonus_of_cents impl _ _ hn (ParseFloat_two_decimals ds a b hne hds ha hb)]
  congr 1
  ring

/-! ### Small facts used by the claims -/

theorem isAlphaNumeric_iff (b : Nat) : isAlphaNumeric b = true ↔ IsAsciiLetterOrDigit b := by
  simp [isAlphaNumeric, IsAsciiLetterOrDigit, or_assoc]

theorem goString_00 : goString "00" = [48, 48] := by decide
theorem goString_25 : goString "25" = [50, 53] := by decide
theorem goString_50 : goString "50" = [53, 48] := by decide
theorem goString_75 : goString "75" = [55, 53] := by decide

theorem countAlphaNumeric_nonneg (str : GoString) : 0 ≤ countAlphaNumeric str := by
  rw [countAlphaNumeric, foldl_count, zero_add]
  exact Int.natCast_nonneg _

theorem centsBonus_nonneg (cents : Int) : 0 ≤ centsBonus cents := by
  unfold centsBonus
  split_ifs <;> norm_num

theorem dayBonus_nonneg (day : Int) : 0 ≤ dayBonus day := by
  unfold dayBonus
  split_ifs <;> norm_num

theorem hourBonus_nonneg (hour : Int) : 0 ≤ hourBonus hour := by
  unfold hourBonus
  split_ifs <;> norm_num

theorem itemsBonus_nonneg (impl : GoImpl) (items : List Item)
    (h : ∀ item ∈ items, item.ShortDescription.length % 3 = 0 →
      0 ≤ priceBonus impl item.Price) : 0 ≤ itemsBonus impl items := by
  unfold itemsBonus
  apply List.sum_nonneg
  intro x hx
  simp only [List.mem_map, countedItems, List.mem_filter, decide_eq_true_eq] at hx
  obtain ⟨item, ⟨hmem, hlen⟩, rfl⟩ := hx
  exact h item hmem hlen

/-! ### The validation and the handlers -/

theorem foldl_invalid (items : List Item) (invalid : Bool) :
    items.foldl
      (fun invalid item => if item.ShortDescription = [] ∨ item.Price = [] then true else invalid)
      invalid = true ↔
    invalid = true ∨ ∃ item ∈ items, item.ShortDescription = [] ∨ item.Price = [] := by
  induction items generalizing invalid with
  | nil => simp
  | cons x xs ih =>
    rw [List.foldl_cons, ih]
    by_cases hx : x.ShortDescription = [] ∨ x.Price = []
    · simp only [if_pos hx, true_or, true_iff]
      exact Or.inr ⟨x, List.mem_cons_self _ _, hx⟩
    · rw [if_neg hx]
      simp only [List.mem_cons, exists_eq_or_imp, hx, false_or]

/-- The flag `invalid` ends true exactly when decoding failed, a field of the
receipt is empty, or a field of an item is empty. -/
theorem receiptInvalid_iff (decodeFailed : Bool) (receipt : Receipt) :
    receiptInvalid decodeFailed receipt = true ↔
      (decodeFailed = true ∨ receipt.Retailer = [] ∨ receipt.PurchaseDate = [] ∨
        receipt.PurchaseTime = [] ∨ receipt.Total = [] ∨
        ∃ item ∈ receipt.Items, item.ShortDescription = [] ∨ item.Price = []) := by
  unfold receiptInvalid
  simp only []
  rw [foldl_invalid]
  cases decodeFailed
  · by_cases h : receipt.Retailer = [] ∨ receipt.PurchaseDate = [] ∨
        receipt.PurchaseTime = [] ∨ receipt.Total = []
    · simp only [if_pos h, Bool.false_eq_true, if_false, true_or, false_or, true_iff]
      tauto
    · simp only [if_neg h, Bool.false_eq_true, if_false, false_or]
      push_neg at h
      simp only [h.1, h.2.1, h.2.2.1, h.2.2.2, false_or]
  · simp

/-- The flag `invalid` stays false for a decoded receipt exactly when the four
fields and the two fields of every item are not empty. -/
theorem receiptInvalid_false_iff (receipt : Receipt) :
    receiptInvalid false receipt = false ↔
      (receipt.Retailer ≠ [] ∧ receipt.PurchaseDate ≠ [] ∧ receipt.PurchaseTime ≠ [] ∧
        receipt.Total ≠ [] ∧
        ∀ item ∈ receipt.Items, item.ShortDescription ≠ [] ∧ item.Price ≠ []) := by
  rw [← Bool.not_eq_true, receiptInvalid_iff]
  simp only [Bool.false_eq_true, false_or, not_or, not_exists, not_and]

theorem processReceipts_invalid (receiptsMap : Store) (key : GoString) (decodeFailed : Bool)
    (receipt : Receipt) (h : receiptInvalid decodeFailed receipt = true) :
    processReceipts receiptsMap key decodeFailed receipt =
      (⟨400, .description (goString "The receipt is invalid")⟩, receiptsMap) := by
  rw [processReceipts, if_pos h]

theorem processReceipts_valid (receiptsMap : Store) (key : GoString) (decodeFailed : Bool)
    (receipt : Receipt) (h : receiptInvalid decodeFailed receipt = false) :
    processReceipts receiptsMap key decodeFailed receipt =
      (⟨200, .id key⟩, setReceipt receiptsMap key receipt) := by
  rw [processReceipts, if_neg (by simp [h])]

theorem setReceipt_same (receiptsMap : Store) (key : GoString) (receipt : Receipt) :
    setReceipt receiptsMap key receipt key = some receipt := by
  simp [setReceipt]

theorem setReceipt_other (receiptsMap : Store) (key id : GoString) (receipt : Receipt)
    (h : id ≠ key) : setReceipt receiptsMap key receipt id = receiptsMap id := by
  simp [setReceipt, h]

theorem getPoints_store (impl : GoImpl) (receiptsMap : Store) (id : GoString) :
    (getPoints impl receiptsMap id).2 = receiptsMap := by
  unfold getPoints
  split <;> rfl

theorem getPoints_found (impl : GoImpl) (receiptsMap : Store) (id : GoString)
    (receipt : Receipt) (h : receiptsMap id = some receipt) :
    (getPoints impl receiptsMap id).1 =
      (calculatePoints impl receipt).map (fun points => ⟨200, .points points⟩) := by
  unfold getPoints
  rw [h]

theorem getPoints_missing (impl : GoImpl) (receiptsMap : Store) (id : GoString)
    (h : receiptsMap id = none) :
    (getPoints impl receiptsMap id).1 =
      some ⟨404, .description (goString "No receipt found for that id")⟩ := by
  unfold getPoints
  rw [h]

/-! ### The errors of `ParseFloat` -/

theorem roundFloat64_cases (neg : Bool) (n d : Nat) :
    roundFloat64 neg n d = (.inf neg, true) ∨
      ∃ m e, roundFloat64 neg n d = (.fin neg m e, false) := by
  unfold roundFloat64
  by_cases hn : n = 0
  · rw [if_pos hn]
    exact Or.inr ⟨0, 0, rfl⟩
  · rw [if_neg hn]
    have aux : ∀ (c : Prop) [Decidable c] (m : Nat) (e : Int),
        (if c then ((F64.inf neg, true) : F64 × Bool) else (F64.fin neg m e, false)) =
            (.inf neg, true) ∨
          ∃ m' e', (if c then ((F64.inf neg, true) : F64 × Bool)
            else (F64.fin neg m e, false)) = (.fin neg m' e', false) := by
      intro c _ m e
      by_cases hc : c
      · rw [if_pos hc]
        exact Or.inl rfl
      · rw [if_neg hc]
        exact Or.inr ⟨m, e, rfl⟩
    exact aux _ _ _

theorem roundFloat64_overflow (neg : Bool) (n d : Nat) (h : (roundFloat64 neg n d).2 = true) :
    (roundFloat64 neg n d).1 = .inf neg := by
  rcases roundFloat64_cases neg n d with h1 | ⟨m, e, h1⟩
  · rw [h1]
  · rw [h1] at h
    simp at h

/-- With a syntax error `ParseFloat` returns 0. -/
theorem ParseFloat_syntax_error (s : GoString) (h : (ParseFloat s).2 = some .ErrSyntax) :
    (ParseFloat s).1 = .fin false 0 0 := by
  unfold ParseFloat at h ⊢
  cases hsp : special s with
  | some p =>
    obtain ⟨f, n⟩ := p
    simp only [hsp] at h ⊢
    by_cases hn : n = s.length
    · rw [if_pos hn] at h
      simp at h
    · rw [if_neg hn]
  | none =>
    simp only [hsp] at h ⊢
    cases hrf : readFloat s with
    | none => simp only [hrf]
    | some r =>
      simp only [hrf] at h ⊢
      by_cases hr : r.rest ≠ []
      · rw [if_pos hr]
      · rw [if_neg hr] at h
        simp only [] at h
        split_ifs at h <;> simp at h

/-- With a range error `ParseFloat` returns an infinity. -/
theorem ParseFloat_range_error (s : GoString) (h : (ParseFloat s).2 = some .ErrRange) :
    ∃ neg, (ParseFloat s).1 = .inf neg := by
  unfold ParseFloat at h ⊢
  cases hsp : special s with
  | some p =>
    obtain ⟨f, n⟩ := p
    simp only [hsp] at h
    split_ifs at h
    simp at h
  | none =>
    simp only [hsp] at h ⊢
    cases hrf : readFloat s with
    | none =>
      simp only [hrf] at h
      simp at h
    | some r =>
      simp only [hrf] at h ⊢
      by_cases hr : r.rest ≠ []
      · rw [if_pos hr] at h
        simp at h
      · rw [if_neg hr] at h ⊢
        simp only [] at h ⊢
        by_cases hov : (roundFloat64 r.neg (if 0 ≤ r.exp then
            r.mantissa * (if r.hex = true then 2 else 10) ^ r.exp.toNat else r.mantissa)
            (if 0 ≤ r.exp then 1 else (if r.hex = true then 2 else 10) ^ (-r.exp).toNat)).2 = true
        · exact ⟨r.neg, roundFloat64_overflow _ _ _ hov⟩
        · rw [if_neg hov] at h
          simp at h

/-- The bonus of a price that `ParseFloat` reads as 0. -/
theorem priceBonus_of_zero (impl : GoImpl) (price : GoString)
    (h : (ParseFloat price).1 = .fin false 0 0) : priceBonus impl price = 0 := by
  rw [priceBonus, h, mul_const02, Nat.zero_mul, scale2_zero, roundFloat64_zero]
  simp [Ceil, F64.toInt]

/-- The bonus of a price that `ParseFloat` reads as an infinity: the
implementation's value for a conversion that does not fit. -/
theorem priceBonus_of_inf (impl : GoImpl) (price : GoString) (neg : Bool)
    (h : (ParseFloat price).1 = .inf neg) :
    priceBonus impl price = wrapInt impl.intSize (impl.convOOR (.inf neg)) := by
  rw [priceBonus, h, const02_eq]
  simp [F64.mul, Ceil, F64.toInt]

/-! ### The requests served from the empty map -/

theorem receiptInvalid_decode (receipt : Receipt) (decodeFailed : Bool)
    (h : receiptInvalid decodeFailed receipt = false) : receiptInvalid false receipt = false := by
  cases decodeFailed
  · exact h
  · have : receiptInvalid true receipt = true := (receiptInvalid_iff true receipt).mpr (Or.inl rfl)
    rw [this] at h
    cases h

theorem handle_allAccepted (impl : GoImpl) (receiptsMap : Store) (request : Request)
    (h : AllAccepted receiptsMap) : AllAccepted (handle impl receiptsMap request) := by
  cases request with
  | process key decodeFailed readReceipt =>
    show AllAccepted (processReceipts receiptsMap key decodeFailed readReceipt).2
    cases hv : receiptInvalid decodeFailed readReceipt
    · rw [processReceipts_valid _ _ _ _ hv]
      intro id receipt hid
      simp only [] at hid
      by_cases hk : id = key
      · rw [hk] at hid
        have : setReceipt receiptsMap key readReceipt key = some readReceipt :=
          setReceipt_same _ _ _
        rw [this] at hid
        cases hid
        exact receiptInvalid_decode _ _ hv
      · have : setReceipt receiptsMap key readReceipt id = receiptsMap id :=
          setReceipt_other _ _ _ _ hk
        rw [this] at hid
        exact h id receipt hid
    · rw [processReceipts_invalid _ _ _ _ hv]
      exact h
  | points id =>
    show AllAccepted (getPoints impl receiptsMap id).2
    rw [getPoints_store]
    exact h

theorem serve_allAccepted (impl : GoImpl) (requests : List Request) (receiptsMap : Store)
    (h : AllAccepted receiptsMap) : AllAccepted (serve impl receiptsMap requests) := by
  induction requests generalizing receiptsMap with
  | nil => exact h
  | cons request rest ih =>
    exact ih (handle impl receiptsMap request) (handle_allAccepted impl receiptsMap request h)

/-! ### The order of the items -/

theorem itemsBonus_perm (impl : GoImpl) (items items' : List Item) (h : items.Perm items') :
    itemsBonus impl items = itemsBonus impl items' := by
  unfold itemsBonus countedItems
  exact ((h.filter _).map _).sum_eq

theorem ruleSum_perm (impl : GoImpl) (receipt : Receipt) (items : List Item)
    (h : receipt.Items.Perm items) :
    ruleSum impl { receipt with Items := items } = ruleSum impl receipt := by
  simp only [ruleSum, centsOf, dayOf, hourOf]
  rw [itemsBonus_perm impl receipt.Items items h, h.length_eq]

/-! ### A receipt on which no rule fires -/

theorem countAlphaNumeric_eq_zero (str : GoString)
    (h : ∀ b ∈ str, ¬ IsAsciiLetterOrDigit b) : countAlphaNumeric str = 0 := by
  rw [countAlphaNumeric, foldl_count, zero_add]
  have : str.countP isAlphaNumeric = 0 := by
    rw [List.countP_eq_zero]
    intro b hb hab
    exact h b hb ((isAlphaNumeric_iff b).mp hab)
  rw [this]
  rfl

theorem centsBonus_eq_zero (cents : Int) (h : ¬ (25 : Int) ∣ cents) : centsBonus cents = 0 := by
  have h0 : cents ≠ 0 := by
    rintro rfl
    exact h (dvd_zero 25)
  have h25 : ¬ cents.tmod 25 = 0 := by
    rw [← Int.dvd_iff_tmod_eq_zero]
    exact h
  simp [centsBonus, h0, h25]

theorem dayBonus_eq_zero (day : Int) (h : Even day) : dayBonus day = 0 := by
  have : ¬ day.tmod 2 = 1 := by
    rw [tmod_2_eq_one_iff]
    rintro ⟨_, h1⟩
    rw [Int.even_iff] at h
    omega
  simp [dayBonus, this]

theorem itemsBonus_eq_zero (impl : GoImpl) (items : List Item)
    (h : ∀ item ∈ items, item.ShortDescription.length % 3 ≠ 0) : itemsBonus impl items = 0 := by
  have : countedItems items = [] := by
    rw [countedItems, List.filter_eq_nil_iff]
    intro item hitem
    simpa using h item hitem
  simp [itemsBonus, this]

/-! ### The sign and the size of the result -/

/-- A plain price is digits, a point and two digits. -/
theorem plainPrice_shape (price : GoString) (h : plainPrice price = true) :
    ∃ ds a b, price = ds ++ [46, a, b] ∧ ds ≠ [] ∧ (∀ c ∈ ds, isDigit c = true) ∧
      isDigit a = true ∧ isDigit b = true ∧ digitsValue ds < 10 ^ 9 := by
  unfold plainPrice at h
  simp only [Bool.and_eq_true, Bool.not_eq_true', decide_eq_true_eq, List.all_eq_true] at h
  obtain ⟨⟨⟨hne, hds⟩, hlt⟩, hm⟩ := h
  have hsplit := List.take_append_drop (price.length - 3) price
  match hd : price.drop (price.length - 3), hm with
  | [p, a, b], hm =>
    simp only [Bool.and_eq_true, beq_iff_eq] at hm
    obtain ⟨⟨hp, ha⟩, hb⟩ := hm
    refine ⟨price.take (price.length - 3), a, b, ?_, ?_, hds, ha, hb, hlt⟩
    · rw [← hp, ← hd, hsplit]
    · intro h0
      rw [h0] at hne
      simp at hne

/-- The bonus of a plain price is between 0 and 200000000. -/
theorem priceBonus_plain (impl : GoImpl) (price : GoString) (h : plainPrice price = true) :
    0 ≤ priceBonus impl price ∧ priceBonus impl price ≤ 200000000 := by
  obtain ⟨ds, a, b, rfl, hne, hds, ha, hb, hlt⟩ := plainPrice_shape price h
  rw [priceBonus_two_decimals impl ds a b hne hds ha hb hlt]
  have hn : digitsValue (ds ++ [a, b]) < 10 ^ 11 := by
    rw [digitsValue_append_two]
    simp only [isDigit, Bool.and_eq_true, decide_eq_true_eq] at ha hb
    norm_num at hlt ⊢
    omega
  have hq : ((digitsValue (ds ++ [a, b]) : Nat) : ℚ) < 10 ^ 11 := by exact_mod_cast hn
  have h0 : (0 : ℚ) ≤ (digitsValue (ds ++ [a, b]) : ℚ) := Nat.cast_nonneg _
  constructor
  · apply Int.ceil_nonneg
    positivity
  · rw [Int.ceil_le]
    push_cast
    linarith

/-- The item block adds at most `bound` for each item when no counted item has
a bonus above `bound`. -/
theorem itemsBonus_le (impl : GoImpl) (bound : Int) (hbound : 0 ≤ bound) (items : List Item)
    (h : ∀ item ∈ items, item.ShortDescription.length % 3 = 0 →
      priceBonus impl item.Price ≤ bound) :
    itemsBonus impl items ≤ bound * (items.length : Int) := by
  induction items with
  | nil => simp [itemsBonus, countedItems]
  | cons item rest ih =>
    have ih1 := ih (fun x hx => h x (List.mem_cons_of_mem _ hx))
    have hrest : itemsBonus impl (item :: rest) =
        (if item.ShortDescription.length % 3 = 0 then priceBonus impl item.Price else 0) +
          itemsBonus impl rest := by
      unfold itemsBonus countedItems
      by_cases hc : item.ShortDescription.length % 3 = 0
      · simp [List.filter_cons, hc]
      · simp [List.filter_cons, hc]
    rw [hrest, List.length_cons]
    push_cast
    split_ifs with hc
    · have := h item (List.mem_cons_self _ _) hc
      linarith
    · linarith

theorem countAlphaNumeric_le (str : GoString) : countAlphaNumeric str ≤ (str.length : Int) := by
  rw [countAlphaNumeric, foldl_count, zero_add]
  exact_mod_cast List.countP_le_length _

theorem centsBonus_le (cents : Int) : centsBonus cents ≤ 75 := by
  unfold centsBonus
  split_ifs <;> norm_num

theorem dayBonus_le (day : Int) : dayBonus day ≤ 6 := by
  unfold dayBonus
  split_ifs <;> norm_num

theorem hourBonus_le (hour : Int) : hourBonus hour ≤ 10 := by
  unfold hourBonus
  split_ifs <;> norm_num

/-- When scoring completes, no counted item has a negative bonus and the sum
of the contributions fits an `int`, the result is the sum, and not negative. -/
theorem calculatePoints_nonneg (impl : GoImpl) (receipt : Receipt) (v : Int)
    (hv : calculatePoints impl receipt = some v)
    (hprice : ∀ item ∈ receipt.Items, item.ShortDescription.length % 3 = 0 →
      0 ≤ priceBonus impl item.Price)
    (hfit : ruleSum impl receipt < 2 ^ (impl.intSize.bits - 1)) :
    0 ≤ v := by
  have hsome : ¬ (receipt.Total.length < 2 ∨ receipt.PurchaseDate.length < 2 ∨
      receipt.PurchaseTime.length < 2) := by
    rw [← calculatePoints_eq_none_iff impl receipt, hv]
    exact Option.some_ne_none v
  push_neg at hsome
  rw [calculatePoints_eq_ruleSum impl receipt hsome.1 hsome.2.1 hsome.2.2] at hv
  have h0 : 0 ≤ ruleSum impl receipt := by
    unfold ruleSum
    have h1 := countAlphaNumeric_nonneg receipt.Retailer
    have h2 := centsBonus_nonneg (centsOf impl receipt)
    have h3 : (0 : Int) ≤ 5 * ((receipt.Items.length / 2 : Nat) : Int) := by positivity
    have h4 := itemsBonus_nonneg impl receipt.Items hprice
    have h5 := dayBonus_nonneg (dayOf impl receipt)
    have h6 := hourBonus_nonneg (hourOf impl receipt)
    linarith
  have hpow : (0 : Int) ≤ 2 ^ (impl.intSize.bits - 1) := by positivity
  rw [wrapInt_of_range _ _ (by linarith) hfit] at hv
  exact (Option.some.inj hv) ▸ h0

/-- The bonus of a price that is plain, or on which `ParseFloat` fails with a
syntax error, is between 0 and 200000000. -/
theorem priceBonus_plain_or_error (impl : GoImpl) (price : GoString)
    (h : plainPrice price = true ∨ (ParseFloat price).2 = some .ErrSyntax) :
    0 ≤ priceBonus impl price ∧ priceBonus impl price ≤ 200000000 := by
  rcases h with h | h
  · exact priceBonus_plain impl price h
  · rw [priceBonus_of_zero impl price (ParseFloat_syntax_error price h)]
    norm_num

/-- The sum of the contributions of a receipt whose counted prices are plain
or fail to parse is at most the length of the retailer, plus 200000003 for
each item, plus 91. -/
theorem ruleSum_le (impl : GoImpl) (receipt : Receipt)
    (hplain : ∀ item ∈ receipt.Items, item.ShortDescription.length % 3 = 0 →
      plainPrice item.Price = true ∨ (ParseFloat item.Price).2 = some .ErrSyntax) :
    ruleSum impl receipt ≤
      ((receipt.Retailer.length + 200000003 * receipt.Items.length + 91 : Nat) : Int) := by
  unfold ruleSum
  have h1 := countAlphaNumeric_le receipt.Retailer
  have h2 := centsBonus_le (centsOf impl receipt)
  have h3 : 5 * ((receipt.Items.length / 2 : Nat) : Int) ≤ 3 * (receipt.Items.length : Int) := by
    have : 5 * (receipt.Items.length / 2) ≤ 3 * receipt.Items.length := by omega
    exact_mod_cast this
  have h4 := itemsBonus_le impl 200000000 (by norm_num) receipt.Items
    (fun item hmem hlen => (priceBonus_plain_or_error impl item.Price (hplain item hmem hlen)).2)
  have h5 := dayBonus_le (dayOf impl receipt)
  have h6 := hourBonus_le (hourOf impl receipt)
  have hcast : ((receipt.Retailer.length + 200000003 * receipt.Items.length + 91 : Nat) : Int) =
      (receipt.Retailer.length : Int) + 200000003 * (receipt.Items.length : Int) + 91 := by
    push_cast
    ring
  rw [hcast]
  linarith

/-! # The claims -/

/-! ## C1: the end-to-end scenario -/

/-- C1: `calculatePoints` returns exactly 28 on the receipt of the end-to-end
scenario (retailer "Target", five items, total "35.35"), on every
implementation of Go. -/
theorem C1_target_receipt_scores_28 (impl : GoImpl) :
    calculatePoints impl targetReceipt = some 28 := by
  have h1 : priceBonus impl (goString "12.25") = 3 :=
    priceBonus_of_ceil impl _ false 3 (by decide!) (by norm_num)
  have h2 : priceBonus impl (goString "12.00") = 3 :=
    priceBonus_of_ceil impl _ false 3 (by decide!) (by norm_num)
  have hitems : itemsBonus impl targetReceipt.Items = 6 := by
    have hc : countedItems targetReceipt.Items =
        [⟨goString "Emils Cheese Pizza", goString "12.25"⟩,
         ⟨goString "Klarbrunn 12-PK 12 FL OZ", goString "12.00"⟩] := by decide
    rw [itemsBonus, hc]
    simp only [List.map_cons, List.map_nil, List.sum_cons, List.sum_nil, h1, h2]
    norm_num
  rw [calculatePoints_eq_ruleSum impl targetReceipt (by decide) (by decide) (by decide),
    ruleSum, hitems]
  obtain ⟨sz, oor⟩ := impl
  have hrest : countAlphaNumeric targetReceipt.Retailer = 6 ∧
      centsBonus (centsOf ⟨sz, oor⟩ targetReceipt) = 0 ∧
      (5 * ((targetReceipt.Items.length / 2 : Nat) : Int)) = 10 ∧
      dayBonus (dayOf ⟨sz, oor⟩ targetReceipt) = 6 ∧
      hourBonus (hourOf ⟨sz, oor⟩ targetReceipt) = 0 := by
    simp only [centsOf, dayOf, hourOf]
    cases sz <;> decide
  obtain ⟨e1, e2, e3, e4, e5⟩ := hrest
  rw [e1, e2, e3, e4, e5]
  exact congrArg some (wrapInt_of_small _ 28 (by norm_num) (by norm_num))

/-! ## C2: the retailer -/

/-- C2: `countAlphaNumeric(s)` is the number of positions of `s` that hold an
ASCII letter or digit (every other byte counts for nothing), the retailer block
of `calculatePoints` adds exactly that count of the retailer to `points`, and
the counts of "Target" and "M&M Corner Market" are 6 and 14. -/
theorem C2_countAlphaNumeric_counts_ascii_letters_and_digits :
    (∀ str : GoString,
      countAlphaNumeric str = (str.countP (fun b => decide (IsAsciiLetterOrDigit b)) : Int)) ∧
    (∀ (impl : GoImpl) (receipt : Receipt) (points : Int),
      scoreRetailer impl receipt points =
        addInt impl.intSize points
          (receipt.Retailer.countP (fun b => decide (IsAsciiLetterOrDigit b)) : Int)) ∧
    (∀ (b : Nat) (s t : GoString),
      countAlphaNumeric (s ++ b :: t) =
        countAlphaNumeric (s ++ t) + (if IsAsciiLetterOrDigit b then 1 else 0)) ∧
    countAlphaNumeric (goString "Target") = 6 ∧
    countAlphaNumeric (goString "M&M Corner Market") = 14 := by
  have key : ∀ str : GoString,
      countAlphaNumeric str = (str.countP (fun b => decide (IsAsciiLetterOrDigit b)) : Int) := by
    intro str
    have hfun : (fun b => decide (IsAsciiLetterOrDigit b)) = isAlphaNumeric := by
      funext b
      rw [Bool.eq_iff_iff]
      simp [isAlphaNumeric_iff]
    rw [hfun, countAlphaNumeric, foldl_count, zero_add]
  refine ⟨key, ?_, ?_, by decide, by decide⟩
  · intro impl receipt points
    rw [scoreRetailer, key]
  · intro b s t
    rw [key, key, List.countP_append, List.countP_append, List.countP_cons]
    by_cases hb : IsAsciiLetterOrDigit b
    · simp only [hb, decide_True, if_true]
      push_cast
      ring
    · simp [hb]

/-! ## C3: the total -/

/-- C3: when the total ends in two decimal digits, the total block of
`calculatePoints` adds 75 if they are "00", 25 if they are "25", "50" or "75",
and leaves `points` as it is for every other pair of digits. -/
theorem C3_total_cents_bonus (impl : GoImpl) (receipt : Receipt) (points : Int)
    (pre : GoString) (a b : Nat) (ha : isDigit a = true) (hb : isDigit b = true)
    (hTotal : receipt.Total = pre ++ [a, b]) :
    scoreTotal impl receipt points =
      some (if [a, b] = goString "00" then addInt impl.intSize points 75
        else if [a, b] = goString "25" ∨ [a, b] = goString "50" ∨ [a, b] = goString "75" then
          addInt impl.intSize points 25
        else points) := by
  have hlen : 2 ≤ receipt.Total.length := by rw [hTotal]; simp
  rw [scoreTotal_eq impl receipt points hlen, hTotal, drop_append_two, Atoi_two]
  simp only [isDigit, Bool.and_eq_true, decide_eq_true_eq] at ha hb
  obtain ⟨ha1, ha2⟩ := ha
  obtain ⟨hb1, hb2⟩ := hb
  rw [goString_00, goString_25, goString_50, goString_75]
  simp only [tmod_25_eq_zero_iff]
  interval_cases a <;> interval_cases b <;> simp [isDigit, addInt_addInt]

/-- C3, at the totals "35.00", "9.00", "10.25" and "10.10": they add 75, 75, 25
and nothing. -/
theorem C3_total_cents_bonus_witness :
    (isDigit 48 = true ∧ (withTotal "35.00").Total = goString "35." ++ [48, 48] ∧
      scoreTotal amd64 (withTotal "35.00") 0 = some 75) ∧
    ((withTotal "9.00").Total = goString "9." ++ [48, 48] ∧
      scoreTotal amd64 (withTotal "9.00") 0 = some 75) ∧
    (isDigit 50 = true ∧ isDigit 53 = true ∧
      (withTotal "10.25").Total = goString "10." ++ [50, 53] ∧
      scoreTotal amd64 (withTotal "10.25") 0 = some 25) ∧
    (isDigit 49 = true ∧ (withTotal "10.10").Total = goString "10." ++ [49, 48] ∧
      scoreTotal amd64 (withTotal "10.10") 0 = some 0) :=
  ⟨⟨by decide, by decide,
      (C3_total_cents_bonus amd64 (withTotal "35.00") 0 (goString "35.") 48 48
        (by decide) (by decide) (by decide)).trans (by decide)⟩,
    ⟨by decide,
      (C3_total_cents_bonus amd64 (withTotal "9.00") 0 (goString "9.") 48 48
        (by decide) (by decide) (by decide)).trans (by decide)⟩,
    ⟨by decide, by decide, by decide,
      (C3_total_cents_bonus amd64 (withTotal "10.25") 0 (goString "10.") 50 53
        (by decide) (by decide) (by decide)).trans (by decide)⟩,
    ⟨by decide, by decide,
      (C3_total_cents_bonus amd64 (withTotal "10.10") 0 (goString "10.") 49 48
        (by decide) (by decide) (by decide)).trans (by decide)⟩⟩

/-! ## C4: the item descriptions -/

/-- C4 fails as stated, at two items.  The description "éa" has two characters
and three bytes: the specification's words give it nothing, `calculatePoints`
counts it and adds 1 for the price "5.00".  The price "5.0000000000000000001"
of the item "abc" is above 5, so that the ceiling of 0.2 times the price is 2:
`calculatePoints` adds 1, the float64 nearest to the price being 5. -/
theorem C4_items_bonus_differs_from_spec :
    (specItemBonus ⟨goString "éa", goString "5.00"⟩ = some 0 ∧
      scoreItems amd64 (withItems [⟨goString "éa", goString "5.00"⟩]) 0 = 1 ∧
      calculatePoints amd64 (withItems [⟨goString "éa", goString "5.00"⟩]) = some 13) ∧
    (specItemBonus ⟨goString "abc", goString "5.0000000000000000001"⟩ = some 2 ∧
      scoreItems amd64 (withItems [⟨goString "abc", goString "5.0000000000000000001"⟩]) 0 = 1 ∧
      calculatePoints amd64 (withItems [⟨goString "abc", goString "5.0000000000000000001"⟩])
        = some 13) := by
  refine ⟨⟨by decide!, by decide!, by decide!⟩, ⟨by decide!, by decide!, by decide!⟩⟩

/-- C4, amended: the item block of `calculatePoints` always completes, and adds
to `points`, in `int` arithmetic, the sum over exactly those items whose
description has a byte length that is a multiple of 3 of
`int(math.Ceil(price * 0.2))`, computed in float64 from the float64 that
`ParseFloat` returns for the price; the other items add nothing (`points`,
an `int`, is written `wrapInt p`).  For a price
written as digits, a point and two digits, of less than one billion, that
float64 computation gives the exact ceiling of 0.2 times the price read as a
decimal number. -/
theorem C4_items_bonus :
    (∀ (impl : GoImpl) (receipt : Receipt) (p : Int),
      scoreItems impl receipt (wrapInt impl.intSize p) =
        wrapInt impl.intSize
          (p + ((receipt.Items.filter (fun item => item.ShortDescription.length % 3 = 0)).map
            (fun item => (Ceil ((ParseFloat item.Price).1.mul const02)).toInt impl)).sum)) ∧
    (∀ (impl : GoImpl) (ds : List Nat) (a b : Nat), ds ≠ [] →
      (∀ c ∈ ds, isDigit c = true) → isDigit a = true → isDigit b = true →
      digitsValue ds < 10 ^ 9 →
      specDecimal (ds ++ [46, a, b]) = some ((digitsValue (ds ++ [a, b]) : ℚ) / 100) ∧
      (Ceil ((ParseFloat (ds ++ [46, a, b])).1.mul const02)).toInt impl =
        ⌈(2 / 10 : ℚ) * ((digitsValue (ds ++ [a, b]) : ℚ) / 100)⌉) := by
  refine ⟨fun impl receipt p => scoreItems_wrapInt impl receipt p, ?_⟩
  intro impl ds a b hne hds ha hb hlt
  exact ⟨specDecimal_two_decimals ds a b hne hds ha hb,
    priceBonus_two_decimals impl ds a b hne hds ha hb hlt⟩

/-- C4, amended, at the price "12.25" of the end-to-end scenario: it is read
as 1225 hundredths, and its bonus is the ceiling of 2.45, which is 3. -/
theorem C4_items_bonus_witness :
    goString "12" ≠ [] ∧ (∀ c ∈ goString "12", isDigit c = true) ∧ isDigit 50 = true ∧
    isDigit 53 = true ∧ digitsValue (goString "12") < 10 ^ 9 ∧
    goString "12" ++ [46, 50, 53] = goString "12.25" ∧
    specDecimal (goString "12" ++ [46, 50, 53]) = some (1225 / 100) ∧
    (Ceil ((ParseFloat (goString "12" ++ [46, 50, 53])).1.mul const02)).toInt amd64 = 3 :=
  ⟨by decide, by decide, by decide, by decide, by decide, by decide,
    ((C4_items_bonus.2 amd64 (goString "12") 50 53 (by decide) (by decide) (by decide)
      (by decide) (by decide)).1).trans (by decide!),
    ((C4_items_bonus.2 amd64 (goString "12") 50 53 (by decide) (by decide) (by decide)
      (by decide) (by decide)).2).trans (by decide!)⟩

/-! ## C5: the pairs of items -/

/-- C5: the pairs block of `calculatePoints` adds `5 * floor(n / 2)` for a
receipt of `n` items, whatever the items are; five items add 10, four items add
10 and one item adds nothing. -/
theorem C5_pairs_bonus :
    (∀ (impl : GoImpl) (receipt : Receipt) (points : Int),
      scorePairs impl receipt points =
        addInt impl.intSize points (5 * ((receipt.Items.length / 2 : Nat) : Int))) ∧
    (∀ (impl : GoImpl) (receipt : Receipt) (i1 i2 i3 i4 i5 : Item),
      scorePairs impl { receipt with Items := [i1, i2, i3, i4, i5] } 0 = 10) ∧
    (∀ (impl : GoImpl) (receipt : Receipt) (i1 i2 i3 i4 : Item),
      scorePairs impl { receipt with Items := [i1, i2, i3, i4] } 0 = 10) ∧
    (∀ (impl : GoImpl) (receipt : Receipt) (i1 : Item),
      scorePairs impl { receipt with Items := [i1] } 0 = 0) := by
  have key : ∀ (impl : GoImpl) (receipt : Receipt) (points : Int),
      scorePairs impl receipt points =
        addInt impl.intSize points (5 * ((receipt.Items.length / 2 : Nat) : Int)) := by
    intro impl receipt points
    rw [scorePairs, addInt_mulInt, addInt, mul_comm]
  refine ⟨key, ?_, ?_, ?_⟩
  · intro impl receipt i1 i2 i3 i4 i5
    rw [key]
    simp only [addInt, List.length_cons, List.length_nil]
    exact wrapInt_of_small _ _ (by norm_num) (by norm_num)
  · intro impl receipt i1 i2 i3 i4
    rw [key]
    simp only [addInt, List.length_cons, List.length_nil]
    exact wrapInt_of_small _ _ (by norm_num) (by norm_num)
  · intro impl receipt i1
    rw [key]
    simp only [addInt, List.length_cons, List.length_nil]
    exact wrapInt_of_small _ _ (by norm_num) (by norm_num)

/-! ## C6: the purchase date -/

/-- C6, at the purchase date "2022-1-1": its last two bytes are "-1", which
`Atoi` parses without error as the odd integer -1, and the date block of
`calculatePoints` leaves `points` as it is instead of adding 6, because
`day%2` is -1 and not 1. -/
theorem C6_negative_odd_day_adds_nothing :
    accepts (withDate "2022-1-1") = true ∧
    (withDate "2022-1-1").PurchaseDate.drop ((withDate "2022-1-1").PurchaseDate.length - 2)
      = goString "-1" ∧
    (∀ sz : IntSize, Atoi sz (goString "-1") = (-1, none)) ∧
    Odd (-1 : Int) ∧
    (-1 : Int).tmod 2 = -1 ∧
    (∀ (impl : GoImpl) (points : Int),
      scoreDate impl (withDate "2022-1-1") points = some points) ∧
    (∀ impl : GoImpl, calculatePoints impl (withDate "2022-1-1") = some 22) := by
  have hA : ∀ sz : IntSize, Atoi sz (goString "-1") = (-1, none) := by
    intro sz; cases sz <;> decide
  have hdrop : (withDate "2022-1-1").PurchaseDate.drop
      ((withDate "2022-1-1").PurchaseDate.length - 2) = goString "-1" := by decide
  refine ⟨by decide, hdrop, hA, by decide, by decide, ?_, ?_⟩
  · intro impl points
    rw [scoreDate_eq impl _ points (by decide), hdrop, hA]
    exact congrArg some (if_neg (by decide))
  · intro impl
    have h1 : priceBonus impl (goString "12.25") = 3 :=
      priceBonus_of_ceil impl _ false 3 (by decide!) (by norm_num)
    have h2 : priceBonus impl (goString "12.00") = 3 :=
      priceBonus_of_ceil impl _ false 3 (by decide!) (by norm_num)
    have hitems : itemsBonus impl (withDate "2022-1-1").Items = 6 := by
      have hc : countedItems (withDate "2022-1-1").Items =
          [⟨goString "Emils Cheese Pizza", goString "12.25"⟩,
           ⟨goString "Klarbrunn 12-PK 12 FL OZ", goString "12.00"⟩] := by decide
      rw [itemsBonus, hc]
      simp only [List.map_cons, List.map_nil, List.sum_cons, List.sum_nil, h1, h2]
      norm_num
    rw [calculatePoints_eq_ruleSum impl _ (by decide) (by decide) (by decide), ruleSum, hitems]
    obtain ⟨sz, oor⟩ := impl
    have hrest : countAlphaNumeric (withDate "2022-1-1").Retailer = 6 ∧
        centsBonus (centsOf ⟨sz, oor⟩ (withDate "2022-1-1")) = 0 ∧
        (5 * (((withDate "2022-1-1").Items.length / 2 : Nat) : Int)) = 10 ∧
        dayBonus (dayOf ⟨sz, oor⟩ (withDate "2022-1-1")) = 0 ∧
        hourBonus (hourOf ⟨sz, oor⟩ (withDate "2022-1-1")) = 0 := by
      simp only [centsOf, dayOf, hourOf]
      cases sz <;> decide
    obtain ⟨e1, e2, e3, e4, e5⟩ := hrest
    rw [e1, e2, e3, e4, e5]
    exact congrArg some (wrapInt_of_small _ 22 (by norm_num) (by norm_num))

/-! ## C7: the purchase time -/

/-- C7: for a purchase time of at least two bytes, the time block of
`calculatePoints` adds 10 when the first two bytes, parsed by `Atoi`, give an
`hour` with `14 <= hour < 16`, and leaves `points` as it is otherwise; that
happens exactly when the first two bytes are "14" or "15". -/
theorem C7_afternoon_bonus (impl : GoImpl) (receipt : Receipt) (points : Int)
    (h : 2 ≤ receipt.PurchaseTime.length) :
    scoreTime impl receipt points =
      some (if 14 ≤ (Atoi impl.intSize (receipt.PurchaseTime.take 2)).1 ∧
          (Atoi impl.intSize (receipt.PurchaseTime.take 2)).1 < 16
        then addInt impl.intSize points 10 else points) ∧
    ((14 ≤ (Atoi impl.intSize (receipt.PurchaseTime.take 2)).1 ∧
        (Atoi impl.intSize (receipt.PurchaseTime.take 2)).1 < 16) ↔
      (receipt.PurchaseTime.take 2 = goString "14" ∨
        receipt.PurchaseTime.take 2 = goString "15")) := by
  refine ⟨scoreTime_eq impl receipt points h, ?_⟩
  obtain ⟨a, b, hab⟩ := take_eq_pair _ h
  have h14 : goString "14" = [49, 52] := by decide
  have h15 : goString "15" = [49, 53] := by decide
  rw [hab, Atoi_two, h14, h15]
  simp only [isDigit, Bool.and_eq_true, decide_eq_true_eq, List.cons.injEq, and_true]
  split_ifs <;> constructor <;> intro hh <;> simp only [] at hh ⊢ <;> omega

/-- C7, at the times "14:00", "15:59", "13:59" and "16:00": the first two earn
the 10 points, the other two do not. -/
theorem C7_afternoon_bonus_witness :
    (2 ≤ (withTime "14:00").PurchaseTime.length ∧
      scoreTime amd64 (withTime "14:00") 0 = some 10) ∧
    (2 ≤ (withTime "15:59").PurchaseTime.length ∧
      scoreTime amd64 (withTime "15:59") 0 = some 10) ∧
    (2 ≤ (withTime "13:59").PurchaseTime.length ∧
      scoreTime amd64 (withTime "13:59") 0 = some 0) ∧
    (2 ≤ (withTime "16:00").PurchaseTime.length ∧
      scoreTime amd64 (withTime "16:00") 0 = some 0) :=
  ⟨⟨by decide, (C7_afternoon_bonus amd64 (withTime "14:00") 0 (by decide)).1.trans (by decide)⟩,
    ⟨by decide, (C7_afternoon_bonus amd64 (withTime "15:59") 0 (by decide)).1.trans (by decide)⟩,
    ⟨by decide, (C7_afternoon_bonus amd64 (withTime "13:59") 0 (by decide)).1.trans (by decide)⟩,
    ⟨by decide, (C7_afternoon_bonus amd64 (withTime "16:00") 0 (by decide)).1.trans (by decide)⟩⟩

/-! ## C8: totality -/

/-- C8, at the receipt of the end-to-end scenario with the total "5": the
Validator accepts it, and `calculatePoints` panics on it, the slice
`receipt.Total[totalStrLen-2:]` being out of range. -/
theorem C8_accepted_receipt_panics :
    accepts (withTotal "5") = true ∧
    goSlice (withTotal "5").Total (((withTotal "5").Total.length : Int) - 2)
      (withTotal "5").Total.length = none ∧
    (∀ impl : GoImpl, calculatePoints impl (withTotal "5") = none) := by
  refine ⟨by decide, by decide, ?_⟩
  intro impl
  rw [calculatePoints_eq_none_iff]
  exact Or.inl (by decide)

/-! ## C9: the sign of the result -/

/-- C9 fails as stated, on three receipts that the Validator accepts and on
which scoring completes.  The refund receipt, with its one negative price,
scores -119 (6 for the retailer, 75 for the total, -200 for the item).  The
bulk receipt has two prices "4e19", each with the bonus 8000000000000000000;
the sum of its contributions, 16000000000000000017, does not fit the `int` of
amd64, and the score is -2446744073709551599.  The price "inf" has the
smallest `int` as its bonus on amd64, and the receipt with this one item scores
-9223372036854775796. -/
theorem C9_accepted_receipts_score_negative :
    (accepts refundReceipt = true ∧
      priceBonus amd64 (goString "-1000.00") = -200 ∧
      calculatePoints amd64 refundReceipt = some (-119)) ∧
    (accepts bulkReceipt = true ∧
      priceBonus amd64 (goString "4e19") = 8000000000000000000 ∧
      ruleSum amd64 bulkReceipt = 16000000000000000017 ∧
      ¬ (ruleSum amd64 bulkReceipt < 2 ^ (amd64.intSize.bits - 1)) ∧
      calculatePoints amd64 bulkReceipt = some (-2446744073709551599)) ∧
    (accepts (withItems [⟨goString "abc", goString "inf"⟩]) = true ∧
      priceBonus amd64 (goString "inf") = -9223372036854775808 ∧
      calculatePoints amd64 (withItems [⟨goString "abc", goString "inf"⟩]) =
        some (-9223372036854775796)) := by
  refine ⟨⟨by decide, by decide!, by decide!⟩,
    ⟨by decide, by decide!, by decide!, by decide!, by decide!⟩,
    ⟨by decide, by decide!, by decide!⟩⟩

/-- C9, amended: when scoring completes on a receipt, no item whose
description has a length that is a multiple of 3 has a negative price bonus
`int(math.Ceil(price * 0.2))`, and the sum of the seven contributions fits an
`int`, the result of `calculatePoints` is not negative.  Both conditions hold
when the price of every such item is plain (digits, a point and two digits,
below one billion) or fails to parse with a syntax error, and the length of
the retailer, plus 200000003 for each item, plus 91 is below `2^(bits-1)`. -/
theorem C9_points_nonnegative :
    (∀ (impl : GoImpl) (receipt : Receipt) (v : Int),
      calculatePoints impl receipt = some v →
      (∀ item ∈ receipt.Items, item.ShortDescription.length % 3 = 0 →
        0 ≤ priceBonus impl item.Price) →
      ruleSum impl receipt < 2 ^ (impl.intSize.bits - 1) →
      0 ≤ v) ∧
    (∀ (impl : GoImpl) (receipt : Receipt),
      (∀ item ∈ receipt.Items, item.ShortDescription.length % 3 = 0 →
        plainPrice item.Price = true ∨ (ParseFloat item.Price).2 = some .ErrSyntax) →
      receipt.Retailer.length + 200000003 * receipt.Items.length + 91 <
        2 ^ (impl.intSize.bits - 1) →
      (∀ item ∈ receipt.Items, item.ShortDescription.length % 3 = 0 →
        0 ≤ priceBonus impl item.Price) ∧
      ruleSum impl receipt < 2 ^ (impl.intSize.bits - 1) ∧
      (∀ v : Int, calculatePoints impl receipt = some v → 0 ≤ v)) := by
  refine ⟨calculatePoints_nonneg, ?_⟩
  intro impl receipt hplain hsize
  have hprice : ∀ item ∈ receipt.Items, item.ShortDescription.length % 3 = 0 →
      0 ≤ priceBonus impl item.Price :=
    fun item hmem hlen => (priceBonus_plain_or_error impl item.Price (hplain item hmem hlen)).1
  have hfit : ruleSum impl receipt < 2 ^ (impl.intSize.bits - 1) := by
    have h1 := ruleSum_le impl receipt hplain
    have h2 : ((receipt.Retailer.length + 200000003 * receipt.Items.length + 91 : Nat) : Int) <
        2 ^ (impl.intSize.bits - 1) := by exact_mod_cast hsize
    linarith
  exact ⟨hprice, hfit, fun v hv => calculatePoints_nonneg impl receipt v hv hprice hfit⟩

/-- C9, amended, at the receipt of the end-to-end scenario, which scores 28,
and at the same receipt with the two items ("abc", "12.25") and ("abc",
"free"), the one price plain and the other not a number, which scores 20. -/
theorem C9_points_nonnegative_witness :
    (calculatePoints amd64 targetReceipt = some 28 ∧
      (∀ item ∈ targetReceipt.Items, item.ShortDescription.length % 3 = 0 →
        0 ≤ priceBonus amd64 item.Price) ∧
      ruleSum amd64 targetReceipt < 2 ^ (amd64.intSize.bits - 1) ∧
      (0 : Int) ≤ 28) ∧
    (plainPrice (goString "12.25") = true ∧
      (ParseFloat (goString "free")).2 = some .ErrSyntax ∧
      calculatePoints amd64
        (withItems [⟨goString "abc", goString "12.25"⟩, ⟨goString "abc", goString "free"⟩]) =
          some 20 ∧
      (0 : Int) ≤ 20) :=
  ⟨⟨by decide!, by decide!, by decide!,
    C9_points_nonnegative.1 amd64 targetReceipt 28 (by decide!) (by decide!) (by decide!)⟩,
   ⟨by decide, by decide!, by decide!,
    (C9_points_nonnegative.2 amd64
      (withItems [⟨goString "abc", goString "12.25"⟩, ⟨goString "abc", goString "free"⟩])
      (by decide!) (by decide)).2.2 20 (by decide!)⟩⟩

/-! ## C10: a total whose cents do not parse -/

/-- C10, at the receipt of the end-to-end scenario with the total "abc0" and
the purchase date "1": the Validator accepts it, its total has four bytes and
`Atoi` fails on the last two, the total block takes `cents` as 0 and adds 75,
and the scoring fails all the same: the slice `receipt.PurchaseDate[dateLen-2:]`
is out of range and `calculatePoints` panics. -/
theorem C10_unparsable_cents_scoring_panics :
    accepts (withTotalDate "abc0" "1") = true ∧
    2 ≤ (withTotalDate "abc0" "1").Total.length ∧
    (∀ sz : IntSize,
      Atoi sz ((withTotalDate "abc0" "1").Total.drop
        ((withTotalDate "abc0" "1").Total.length - 2)) = (0, some .ErrSyntax)) ∧
    scoreTotal amd64 (withTotalDate "abc0" "1") 0 = some 75 ∧
    goSlice (withTotalDate "abc0" "1").PurchaseDate
      (((withTotalDate "abc0" "1").PurchaseDate.length : Int) - 2)
      (withTotalDate "abc0" "1").PurchaseDate.length = none ∧
    (∀ impl : GoImpl, calculatePoints impl (withTotalDate "abc0" "1") = none) := by
  refine ⟨by decide, by decide, ?_, by decide, by decide, ?_⟩
  · intro sz
    cases sz <;> decide
  · intro impl
    rw [calculatePoints_eq_none_iff]
    exact Or.inr (Or.inl (by decide))

/-! ## C11: parse failures at the other three sites -/

/-- C11 fails as stated, at the price "1e999": `ParseFloat` fails on it with
a range error and returns +Inf, not 0, and the item ("abc", "1e999") adds
`int(+Inf)`, the smallest `int` on amd64, instead of 0. -/
theorem C11_range_error_is_not_zero :
    (ParseFloat (goString "1e999")).2 = some .ErrRange ∧
    (ParseFloat (goString "1e999")).1 = .inf false ∧
    priceBonus amd64 (goString "1e999") = -9223372036854775808 ∧
    scoreItems amd64 (withItems [⟨goString "abc", goString "1e999"⟩]) 0
      = -9223372036854775808 ∧
    calculatePoints amd64 (withItems [⟨goString "abc", goString "1e999"⟩])
      = some (-9223372036854775796) := by
  refine ⟨by decide!, by decide!, by decide!, by decide!, by decide!⟩

/-- C11, amended: the value used at each of the three sites is the one the
library returns with the error, and the rule is evaluated on it.  A price that
is not a number (`ErrSyntax`) is read as 0 and its item adds 0; a price that is
a number out of the range of float64 (`ErrRange`) is read as an infinity, and
its item adds what the implementation makes of `int` of an infinity.  A date
whose last two bytes fail to parse gives the day 0 and adds nothing, a time
whose first two bytes fail to parse gives the hour 0 and adds nothing. -/
theorem C11_parse_failures :
    (∀ (impl : GoImpl) (price : GoString), (ParseFloat price).2 = some .ErrSyntax →
      (ParseFloat price).1 = .fin false 0 0 ∧ priceBonus impl price = 0) ∧
    (∀ (impl : GoImpl) (item : Item) (p : Int), item.ShortDescription.length % 3 = 0 →
      (ParseFloat item.Price).2 = some .ErrSyntax →
      scoreItems impl (withItems [item]) (wrapInt impl.intSize p) = wrapInt impl.intSize p) ∧
    (∀ (impl : GoImpl) (price : GoString), (ParseFloat price).2 = some .ErrRange →
      ∃ neg, (ParseFloat price).1 = .inf neg ∧
        priceBonus impl price = wrapInt impl.intSize (impl.convOOR (.inf neg))) ∧
    (∀ (impl : GoImpl) (receipt : Receipt) (points : Int), 2 ≤ receipt.PurchaseDate.length →
      (Atoi impl.intSize
        (receipt.PurchaseDate.drop (receipt.PurchaseDate.length - 2))).2 ≠ none →
      dayOf impl receipt = 0 ∧ scoreDate impl receipt points = some points) ∧
    (∀ (impl : GoImpl) (receipt : Receipt) (points : Int), 2 ≤ receipt.PurchaseTime.length →
      (Atoi impl.intSize (receipt.PurchaseTime.take 2)).2 ≠ none →
      hourOf impl receipt = 0 ∧ scoreTime impl receipt points = some points) := by
  refine ⟨?_, ?_, ?_, ?_, ?_⟩
  · intro impl price h
    exact ⟨ParseFloat_syntax_error price h,
      priceBonus_of_zero impl price (ParseFloat_syntax_error price h)⟩
  · intro impl item p hlen h
    rw [scoreItems_wrapInt]
    have : itemsBonus impl (withItems [item]).Items = 0 := by
      simp [itemsBonus, countedItems, withItems, hlen,
        priceBonus_of_zero impl item.Price (ParseFloat_syntax_error item.Price h)]
    rw [this, add_zero]
  · intro impl price h
    obtain ⟨neg, hneg⟩ := ParseFloat_range_error price h
    exact ⟨neg, hneg, priceBonus_of_inf impl price neg hneg⟩
  · intro impl receipt points hlen herr
    obtain ⟨a, b, hab⟩ := drop_eq_pair _ hlen
    have h0 : dayOf impl receipt = 0 := by
      rw [dayOf]
      rw [hab] at herr ⊢
      exact Atoi_two_error _ a b herr
    refine ⟨h0, ?_⟩
    rw [scoreDate_eq impl receipt points hlen]
    rw [dayOf] at h0
    rw [h0]
    exact congrArg some (if_neg (by decide))
  · intro impl receipt points hlen herr
    obtain ⟨a, b, hab⟩ := take_eq_pair _ hlen
    have h0 : hourOf impl receipt = 0 := by
      rw [hourOf]
      rw [hab] at herr ⊢
      exact Atoi_two_error _ a b herr
    refine ⟨h0, ?_⟩
    rw [scoreTime_eq impl receipt points hlen]
    rw [hourOf] at h0
    rw [h0]
    exact congrArg some (if_neg (by decide))

/-- C11, amended, at the price "12,50", the date "2022-01-ab" and the time
"ab:01": none of them parses, and each adds nothing. -/
theorem C11_parse_failures_witness :
    ((ParseFloat (goString "12,50")).2 = some .ErrSyntax ∧
      priceBonus amd64 (goString "12,50") = 0) ∧
    (2 ≤ (withDate "2022-01-ab").PurchaseDate.length ∧
      (Atoi amd64.intSize ((withDate "2022-01-ab").PurchaseDate.drop
        ((withDate "2022-01-ab").PurchaseDate.length - 2))).2 ≠ none ∧
      scoreDate amd64 (withDate "2022-01-ab") 7 = some 7) ∧
    (2 ≤ (withTime "ab:01").PurchaseTime.length ∧
      (Atoi amd64.intSize ((withTime "ab:01").PurchaseTime.take 2)).2 ≠ none ∧
      scoreTime amd64 (withTime "ab:01") 7 = some 7) :=
  ⟨⟨by decide!, (C11_parse_failures.1 amd64 (goString "12,50") (by decide!)).2⟩,
    ⟨by decide, by decide,
      (C11_parse_failures.2.2.2.1 amd64 (withDate "2022-01-ab") 7 (by decide) (by decide)).2⟩,
    ⟨by decide, by decide,
      (C11_parse_failures.2.2.2.2 amd64 (withTime "ab:01") 7 (by decide) (by decide)).2⟩⟩

/-! ## C12: the candidates the validation rejects -/

/-- C12: the flag `invalid` of `processReceipts` ends true, and the response
is the status 400, exactly when decoding failed, or the retailer, the purchase
date, the purchase time or the total is empty, or some item of the list,
wherever it stands, has an empty description or an empty price. -/
theorem C12_validation_rejects :
    (∀ (decodeFailed : Bool) (receipt : Receipt),
      receiptInvalid decodeFailed receipt = true ↔
        (decodeFailed = true ∨ receipt.Retailer = [] ∨ receipt.PurchaseDate = [] ∨
          receipt.PurchaseTime = [] ∨ receipt.Total = [] ∨
          ∃ item ∈ receipt.Items, item.ShortDescription = [] ∨ item.Price = [])) ∧
    (∀ (receiptsMap : Store) (key : GoString) (decodeFailed : Bool) (receipt : Receipt),
      (processReceipts receiptsMap key decodeFailed receipt).1.status = 400 ↔
        (decodeFailed = true ∨ receipt.Retailer = [] ∨ receipt.PurchaseDate = [] ∨
          receipt.PurchaseTime = [] ∨ receipt.Total = [] ∨
          ∃ item ∈ receipt.Items, item.ShortDescription = [] ∨ item.Price = [])) ∧
    (∀ (receiptsMap : Store) (key : GoString) (decodeFailed : Bool) (receipt : Receipt)
      (before after : List Item) (item : Item),
      receipt.Items = before ++ item :: after →
      (item.ShortDescription = [] ∨ item.Price = []) →
      (processReceipts receiptsMap key decodeFailed receipt).1.status = 400) := by
  have key2 : ∀ (receiptsMap : Store) (key : GoString) (decodeFailed : Bool)
      (receipt : Receipt),
      (processReceipts receiptsMap key decodeFailed receipt).1.status = 400 ↔
        receiptInvalid decodeFailed receipt = true := by
    intro receiptsMap key decodeFailed receipt
    cases h : receiptInvalid decodeFailed receipt
    · rw [processReceipts_valid _ _ _ _ h]
      simp
    · rw [processReceipts_invalid _ _ _ _ h]
      simp
  refine ⟨receiptInvalid_iff, ?_, ?_⟩
  · intro receiptsMap key decodeFailed receipt
    rw [key2, receiptInvalid_iff]
  · intro receiptsMap key decodeFailed receipt before after item hitems hitem
    rw [key2, receiptInvalid_iff]
    refine Or.inr (Or.inr (Or.inr (Or.inr (Or.inr ⟨item, ?_, hitem⟩))))
    rw [hitems]
    simp

/-! ## C13: the receipts the validation accepts -/

/-- C13: a successfully decoded receipt is accepted (the flag `invalid` stays
false, and `processReceipts` stores it and answers with the identifier)
exactly when its retailer, purchase date, purchase time and total are not
empty and every item has a description and a price that are not empty; nothing
else in the fields matters, and a receipt with no item is accepted. -/
theorem C13_validation_accepts :
    (∀ receipt : Receipt,
      receiptInvalid false receipt = false ↔
        (receipt.Retailer ≠ [] ∧ receipt.PurchaseDate ≠ [] ∧ receipt.PurchaseTime ≠ [] ∧
          receipt.Total ≠ [] ∧
          ∀ item ∈ receipt.Items, item.ShortDescription ≠ [] ∧ item.Price ≠ [])) ∧
    (∀ (receiptsMap : Store) (key : GoString) (receipt : Receipt),
      receipt.Retailer ≠ [] → receipt.PurchaseDate ≠ [] → receipt.PurchaseTime ≠ [] →
      receipt.Total ≠ [] →
      (∀ item ∈ receipt.Items, item.ShortDescription ≠ [] ∧ item.Price ≠ []) →
      processReceipts receiptsMap key false receipt =
        (⟨200, .id key⟩, setReceipt receiptsMap key receipt)) ∧
    (∀ (receiptsMap : Store) (key retailer date time total : GoString),
      retailer ≠ [] → date ≠ [] → time ≠ [] → total ≠ [] →
      processReceipts receiptsMap key false ⟨retailer, date, time, [], total⟩ =
        (⟨200, .id key⟩, setReceipt receiptsMap key ⟨retailer, date, time, [], total⟩)) := by
  refine ⟨receiptInvalid_false_iff, ?_, ?_⟩
  · intro receiptsMap key receipt h1 h2 h3 h4 h5
    exact processReceipts_valid _ _ _ _
      ((receiptInvalid_false_iff receipt).mpr ⟨h1, h2, h3, h4, h5⟩)
  · intro receiptsMap key retailer date time total h1 h2 h3 h4
    exact processReceipts_valid _ _ _ _
      ((receiptInvalid_false_iff _).mpr ⟨h1, h2, h3, h4, by simp⟩)

/-- C13, at a receipt with no item and fields that are no numbers, dates or
times: it is accepted and stored. -/
theorem C13_validation_accepts_witness :
    goString "x" ≠ [] ∧
    processReceipts emptyStore (goString "id-1") false
        ⟨goString "x", goString "x", goString "x", [], goString "x"⟩ =
      (⟨200, .id (goString "id-1")⟩,
        setReceipt emptyStore (goString "id-1")
          ⟨goString "x", goString "x", goString "x", [], goString "x"⟩) :=
  ⟨by decide,
    C13_validation_accepts.2.2 emptyStore (goString "id-1") (goString "x") (goString "x")
      (goString "x") (goString "x") (by decide) (by decide) (by decide) (by decide)⟩

/-! ## C14: the points query -/

/-- C14, at the receipt of the end-to-end scenario with the purchase date "1",
stored under the identifier "id-1": the Validator accepts the receipt,
`processReceipts` stores it, the identifier is a key of the map, and
`getPoints` on it answers with no points: `calculatePoints` panics on the
stored receipt, and the handler with it. -/
theorem C14_getPoints_panics_on_stored_receipt :
    accepts (withDate "1") = true ∧
    processReceipts emptyStore (goString "id-1") false (withDate "1") =
      (⟨200, .id (goString "id-1")⟩,
        setReceipt emptyStore (goString "id-1") (withDate "1")) ∧
    (∀ receiptsMap : Store, receiptsMap (goString "id-1") = some (withDate "1") →
      ∀ impl : GoImpl,
        calculatePoints impl (withDate "1") = none ∧
        (getPoints impl receiptsMap (goString "id-1")).1 = none) := by
  refine ⟨by decide, processReceipts_valid _ _ _ _ (by decide), ?_⟩
  intro receiptsMap hid impl
  have hc : calculatePoints impl (withDate "1") = none := by
    rw [calculatePoints_eq_none_iff]
    exact Or.inr (Or.inl (by decide))
  refine ⟨hc, ?_⟩
  rw [getPoints_found impl receiptsMap _ _ hid, hc]
  rfl

/-! ## C15: submit, then query -/

/-- C15, at the receipt of the end-to-end scenario with the purchase time "1",
submitted to the empty map: the Validator accepts it, `processReceipts` answers
with the generated identifier and stores the receipt under it, and `getPoints`
on that identifier in the map it leaves answers with no points, as
`calculatePoints` panics at the slice `receipt.PurchaseTime[0:2]`. -/
theorem C15_submit_then_query_panics :
    accepts (withTime "1") = true ∧
    (processReceipts emptyStore (goString "id-1") false (withTime "1")).1 =
      ⟨200, .id (goString "id-1")⟩ ∧
    (processReceipts emptyStore (goString "id-1") false (withTime "1")).2 (goString "id-1") =
      some (withTime "1") ∧
    goSlice (withTime "1").PurchaseTime 0 2 = none ∧
    (∀ impl : GoImpl,
      (getPoints impl (processReceipts emptyStore (goString "id-1") false (withTime "1")).2
        (goString "id-1")).1 = none) := by
  have hp := processReceipts_valid emptyStore (goString "id-1") false (withTime "1") (by decide)
  refine ⟨by decide, ?_, ?_, by decide, ?_⟩
  · rw [hp]
  · rw [hp]
    exact setReceipt_same emptyStore (goString "id-1") (withTime "1")
  · intro impl
    have hc : calculatePoints impl (withTime "1") = none := by
      rw [calculatePoints_eq_none_iff]
      exact Or.inr (Or.inr (by decide))
    rw [hp, getPoints_found impl _ _ _ (setReceipt_same _ _ _), hc]
    rfl

/-! ## C16: a rejected candidate -/

/-- C16: for a candidate that the validation rejects, `processReceipts`
answers with the status 400 and the description "The receipt is invalid", a
body that holds no identifier, and leaves the map as it was. -/
theorem C16_rejected_candidate (receiptsMap : Store) (key : GoString) (decodeFailed : Bool)
    (receipt : Receipt) (h : receiptInvalid decodeFailed receipt = true) :
    processReceipts receiptsMap key decodeFailed receipt =
      (⟨400, .description (goString "The receipt is invalid")⟩, receiptsMap) ∧
    (∀ ID : GoString, (processReceipts receiptsMap key decodeFailed receipt).1.body ≠ .id ID) ∧
    (processReceipts receiptsMap key decodeFailed receipt).2 = receiptsMap := by
  rw [processReceipts_invalid _ _ _ _ h]
  refine ⟨rfl, ?_, rfl⟩
  intro ID hID
  cases hID

/-- C16, at the receipt of the end-to-end scenario with an empty total, and at
a body that failed to decode. -/
theorem C16_rejected_candidate_witness :
    (receiptInvalid false (withTotal "") = true ∧
      processReceipts emptyStore (goString "id-1") false (withTotal "") =
        (⟨400, .description (goString "The receipt is invalid")⟩, emptyStore)) ∧
    (receiptInvalid true targetReceipt = true ∧
      processReceipts emptyStore (goString "id-1") true targetReceipt =
        (⟨400, .description (goString "The receipt is invalid")⟩, emptyStore)) :=
  ⟨⟨by decide,
      (C16_rejected_candidate emptyStore (goString "id-1") false (withTotal "") (by decide)).1⟩,
    ⟨by decide,
      (C16_rejected_candidate emptyStore (goString "id-1") true targetReceipt (by decide)).1⟩⟩

/-! ## C17: stored records stay as they are -/

/-- C17: `getPoints` leaves the map as it was, so that a second `getPoints` on
the same identifier gives the same answer; `processReceipts`, when the
generated identifier is not yet a key, leaves every key of the map a key, with
the same receipt under it. -/
theorem C17_stored_records_stay :
    (∀ (impl : GoImpl) (receiptsMap : Store) (id : GoString),
      (getPoints impl receiptsMap id).2 = receiptsMap) ∧
    (∀ (impl : GoImpl) (receiptsMap : Store) (id : GoString),
      (getPoints impl (getPoints impl receiptsMap id).2 id).1 =
        (getPoints impl receiptsMap id).1) ∧
    (∀ (receiptsMap : Store) (key : GoString) (decodeFailed : Bool) (readReceipt : Receipt),
      receiptsMap key = none →
      ∀ (id : GoString) (receipt : Receipt), receiptsMap id = some receipt →
        (processReceipts receiptsMap key decodeFailed readReceipt).2 id = some receipt) := by
  refine ⟨getPoints_store, ?_, ?_⟩
  · intro impl receiptsMap id
    rw [getPoints_store]
  · intro receiptsMap key decodeFailed readReceipt hkey id receipt hid
    cases hv : receiptInvalid decodeFailed readReceipt
    · rw [processReceipts_valid _ _ _ _ hv]
      have hne : id ≠ key := by
        intro heq
        rw [heq, hkey] at hid
        cases hid
      show setReceipt receiptsMap key readReceipt id = some receipt
      rw [setReceipt_other _ _ _ _ hne, hid]
    · rw [processReceipts_invalid _ _ _ _ hv]
      exact hid

/-- C17, at the map that holds the receipt of the end-to-end scenario under
"id-1": a submission under the new identifier "id-2" leaves it there. -/
theorem C17_stored_records_stay_witness :
    setReceipt emptyStore (goString "id-1") targetReceipt (goString "id-2") = none ∧
    setReceipt emptyStore (goString "id-1") targetReceipt (goString "id-1")
      = some targetReceipt ∧
    (processReceipts (setReceipt emptyStore (goString "id-1") targetReceipt)
      (goString "id-2") false refundReceipt).2 (goString "id-1") = some targetReceipt :=
  ⟨by decide, by decide,
    C17_stored_records_stay.2.2 (setReceipt emptyStore (goString "id-1") targetReceipt)
      (goString "id-2") false refundReceipt (by decide) (goString "id-1") targetReceipt
      (by decide)⟩

/-! ## C18: the score is the sum of the seven contributions -/

/-- C18: when scoring completes, the result of `calculatePoints` is the sum,
as an `int`, of the seven contributions (retailer, round total, multiple of
25, pairs, item descriptions, day, hour) and of nothing else; on a receipt on
which no rule fires (no ASCII letter or digit in the retailer, cents not
divisible by 25, fewer than two items, no description whose length is a
multiple of 3, an even day, an hour outside `[14, 16)`) the result is 0. -/
theorem C18_score_is_sum_of_rules (impl : GoImpl) (receipt : Receipt) (v : Int)
    (hv : calculatePoints impl receipt = some v) :
    v = wrapInt impl.intSize
      (countAlphaNumeric receipt.Retailer +
        ((if centsOf impl receipt = 0 then 50 else 0) +
          (if (centsOf impl receipt).tmod 25 = 0 then 25 else 0)) +
        5 * ((receipt.Items.length / 2 : Nat) : Int) +
        ((receipt.Items.filter (fun item => item.ShortDescription.length % 3 = 0)).map
          (fun item => priceBonus impl item.Price)).sum +
        (if (dayOf impl receipt).tmod 2 = 1 then 6 else 0) +
        (if 14 ≤ hourOf impl receipt ∧ hourOf impl receipt < 16 then 10 else 0)) ∧
    ((∀ b ∈ receipt.Retailer, ¬ IsAsciiLetterOrDigit b) →
      ¬ (25 : Int) ∣ centsOf impl receipt →
      receipt.Items.length < 2 →
      (∀ item ∈ receipt.Items, item.ShortDescription.length % 3 ≠ 0) →
      Even (dayOf impl receipt) →
      ¬ (14 ≤ hourOf impl receipt ∧ hourOf impl receipt < 16) →
      v = 0) := by
  have hsome : ¬ (receipt.Total.length < 2 ∨ receipt.PurchaseDate.length < 2 ∨
      receipt.PurchaseTime.length < 2) := by
    rw [← calculatePoints_eq_none_iff impl receipt, hv]
    exact Option.some_ne_none v
  push_neg at hsome
  rw [calculatePoints_eq_ruleSum impl receipt hsome.1 hsome.2.1 hsome.2.2] at hv
  have hveq : v = wrapInt impl.intSize (ruleSum impl receipt) := (Option.some.inj hv).symm
  refine ⟨hveq, ?_⟩
  intro h1 h2 h3 h4 h5 h6
  have hz : ruleSum impl receipt = 0 := by
    have e3 : receipt.Items.length / 2 = 0 := by omega
    rw [ruleSum, countAlphaNumeric_eq_zero _ h1, centsBonus_eq_zero _ h2, e3,
      itemsBonus_eq_zero impl _ h4, dayBonus_eq_zero _ h5, hourBonus, if_neg h6]
    norm_num
  rw [hveq, hz]
  exact wrapInt_of_small _ 0 (by norm_num) (by norm_num)

/-- C18, at a receipt on which no rule fires (retailer "&&", total "1.01", one
item "ab", date "2022-01-02", time "13:01"): it scores 0. -/
theorem C18_score_is_sum_of_rules_witness :
    calculatePoints amd64 quietReceipt = some 0 ∧
    (∀ b ∈ quietReceipt.Retailer, ¬ IsAsciiLetterOrDigit b) ∧
    ¬ (25 : Int) ∣ centsOf amd64 quietReceipt ∧
    quietReceipt.Items.length < 2 ∧
    (∀ item ∈ quietReceipt.Items, item.ShortDescription.length % 3 ≠ 0) ∧
    Even (dayOf amd64 quietReceipt) ∧
    ¬ (14 ≤ hourOf amd64 quietReceipt ∧ hourOf amd64 quietReceipt < 16) ∧
    (0 : Int) = 0 :=
  ⟨by decide!, by decide, by decide, by decide, by decide, by decide, by decide,
    (C18_score_is_sum_of_rules amd64 quietReceipt 0 (by decide!)).2 (by decide) (by decide)
      (by decide) (by decide) (by decide) (by decide)⟩

/-! ## C19: the receipts of the map -/

/-- C19: after any sequence of `processReceipts` and `getPoints` requests
served from the empty map, every receipt held in the map has a retailer, a
purchase date, a purchase time and a total that are not empty, and every one
of its items has a description and a price that are not empty. -/
theorem C19_stored_receipts_are_valid (impl : GoImpl) (requests : List Request)
    (id : GoString) (receipt : Receipt)
    (h : serve impl emptyStore requests id = some receipt) :
    receipt.Retailer ≠ [] ∧ receipt.PurchaseDate ≠ [] ∧ receipt.PurchaseTime ≠ [] ∧
      receipt.Total ≠ [] ∧
      ∀ item ∈ receipt.Items, item.ShortDescription ≠ [] ∧ item.Price ≠ [] := by
  have h0 : AllAccepted emptyStore := by
    intro id receipt hid
    cases hid
  exact (receiptInvalid_false_iff receipt).mp
    (serve_allAccepted impl requests emptyStore h0 id receipt h)

/-- C19, at the requests: submit the end-to-end receipt under "id-1", query
it, submit a receipt with an empty total under "id-2", submit with a body that
failed to decode under "id-3".  Only the first is stored. -/
theorem C19_stored_receipts_are_valid_witness :
    serve amd64 emptyStore
      [.process (goString "id-1") false targetReceipt, .points (goString "id-1"),
        .process (goString "id-2") false (withTotal ""),
        .process (goString "id-3") true targetReceipt] (goString "id-1") = some targetReceipt ∧
    serve amd64 emptyStore
      [.process (goString "id-1") false targetReceipt, .points (goString "id-1"),
        .process (goString "id-2") false (withTotal ""),
        .process (goString "id-3") true targetReceipt] (goString "id-2") = none ∧
    serve amd64 emptyStore
      [.process (goString "id-1") false targetReceipt, .points (goString "id-1"),
        .process (goString "id-2") false (withTotal ""),
        .process (goString "id-3") true targetReceipt] (goString "id-3") = none ∧
    targetReceipt.Total ≠ [] :=
  ⟨by decide, by decide, by decide,
    (C19_stored_receipts_are_valid amd64
      [.process (goString "id-1") false targetReceipt, .points (goString "id-1"),
        .process (goString "id-2") false (withTotal ""),
        .process (goString "id-3") true targetReceipt] (goString "id-1") targetReceipt
      (by decide)).2.2.2.1⟩

/-! ## C20: the order of the items -/

/-- C20: `calculatePoints` gives the same result on two receipts that differ
only in the order of their items (the same panic when it panics). -/
theorem C20_item_order_is_irrelevant (impl : GoImpl) (receipt : Receipt) (items : List Item)
    (h : receipt.Items.Perm items) :
    calculatePoints impl { receipt with Items := items } = calculatePoints impl receipt := by
  by_cases hlen : receipt.Total.length < 2 ∨ receipt.PurchaseDate.length < 2 ∨
      receipt.PurchaseTime.length < 2
  · rw [(calculatePoints_eq_none_iff impl receipt).mpr hlen,
      (calculatePoints_eq_none_iff impl { receipt with Items := items }).mpr hlen]
  · push_neg at hlen
    rw [calculatePoints_eq_ruleSum impl receipt hlen.1 hlen.2.1 hlen.2.2,
      calculatePoints_eq_ruleSum impl { receipt with Items := items } hlen.1 hlen.2.1 hlen.2.2,
      ruleSum_perm impl receipt items h]

/-- C20, at the receipt of the end-to-end scenario with its items in the
reverse order: it scores 28 as well. -/
theorem C20_item_order_is_irrelevant_witness :
    targetReceipt.Items.Perm targetReceipt.Items.reverse ∧
    calculatePoints amd64 { targetReceipt with Items := targetReceipt.Items.reverse } = some 28 :=
  ⟨(List.reverse_perm _).symm,
    (C20_item_order_is_irrelevant amd64 targetReceipt targetReceipt.Items.reverse
      (List.reverse_perm _).symm).trans (by decide!)⟩

/-! # Further properties -/

/-- The run-time panics of `calculatePoints`: it panics exactly when the total,
the purchase date or the purchase time has fewer than two bytes, and returns a
value on every other receipt. -/
theorem X1_calculatePoints_panics_iff_short_field (impl : GoImpl) (receipt : Receipt) :
    (calculatePoints impl receipt = none ↔
      receipt.Total.length < 2 ∨ receipt.PurchaseDate.length < 2 ∨
        receipt.PurchaseTime.length < 2) ∧
    ((∃ v, calculatePoints impl receipt = some v) ↔
      2 ≤ receipt.Total.length ∧ 2 ≤ receipt.PurchaseDate.length ∧
        2 ≤ receipt.PurchaseTime.length) := by
  refine ⟨calculatePoints_eq_none_iff impl receipt, ?_⟩
  constructor
  · rintro ⟨v, hv⟩
    have hsome : ¬ (receipt.Total.length < 2 ∨ receipt.PurchaseDate.length < 2 ∨
        receipt.PurchaseTime.length < 2) := by
      rw [← calculatePoints_eq_none_iff impl receipt, hv]
      exact Option.some_ne_none v
    push_neg at hsome
    exact hsome
  · rintro ⟨h1, h2, h3⟩
    exact ⟨_, calculatePoints_eq_ruleSum impl receipt h1 h2 h3⟩

/-- The date block of `calculatePoints`: it panics on a date of fewer than two
bytes; otherwise it adds 6 exactly when the last two bytes parse to an odd
integer that is not negative, and leaves `points` as it is in every other
case, a negative odd value included. -/
theorem X2_date_block_adds_6_iff_positive_odd (impl : GoImpl) (receipt : Receipt)
    (points : Int) :
    scoreDate impl receipt points =
      if receipt.PurchaseDate.length < 2 then none
      else some (if 0 ≤ dayOf impl receipt ∧ dayOf impl receipt % 2 = 1
        then addInt impl.intSize points 6 else points) := by
  by_cases h : receipt.PurchaseDate.length < 2
  · rw [if_pos h, scoreDate_short impl receipt points h]
  · rw [if_neg h, scoreDate_eq impl receipt points (by omega)]
    simp only [tmod_2_eq_one_iff, dayOf]

/-- The total block on a total of at least two bytes whose last two bytes do
not parse: `cents` is 0 and the block adds the 50 of the round dollar amount
and the 25 of the multiple of 25, 75 in all; and `calculatePoints` returns a
value on such a receipt when the date and the time have two bytes as well. -/
theorem X3_unparsable_cents_add_75 (impl : GoImpl) (receipt : Receipt) (points : Int)
    (hlen : 2 ≤ receipt.Total.length)
    (herr : (Atoi impl.intSize (receipt.Total.drop (receipt.Total.length - 2))).2 ≠ none) :
    (Atoi impl.intSize (receipt.Total.drop (receipt.Total.length - 2))).1 = 0 ∧
    scoreTotal impl receipt points =
      some (addInt impl.intSize (addInt impl.intSize points 50) 25) ∧
    addInt impl.intSize (addInt impl.intSize points 50) 25 = addInt impl.intSize points 75 ∧
    (2 ≤ receipt.PurchaseDate.length → 2 ≤ receipt.PurchaseTime.length →
      ∃ v, calculatePoints impl receipt = some v) := by
  obtain ⟨a, b, hab⟩ := drop_eq_pair _ hlen
  have h0 : (Atoi impl.intSize (receipt.Total.drop (receipt.Total.length - 2))).1 = 0 := by
    rw [hab] at herr ⊢
    exact Atoi_two_error _ a b herr
  refine ⟨h0, ?_, addInt_addInt _ _ _ _, ?_⟩
  · rw [scoreTotal_eq impl receipt points hlen, h0]
    simp
  · intro hD hT
    exact ⟨_, calculatePoints_eq_ruleSum impl receipt hlen hD hT⟩

/-- The total "abc0": `Atoi` fails on "c0", and the total adds 75. -/
theorem X3_unparsable_cents_add_75_witness :
    2 ≤ (withTotal "abc0").Total.length ∧
    (Atoi amd64.intSize
      ((withTotal "abc0").Total.drop ((withTotal "abc0").Total.length - 2))).2 ≠ none ∧
    scoreTotal amd64 (withTotal "abc0") 0 = some 75 ∧
    (∃ v, calculatePoints amd64 (withTotal "abc0") = some v) :=
  ⟨by decide, by decide,
    (X3_unparsable_cents_add_75 amd64 (withTotal "abc0") 0 (by decide) (by decide)).2.1.trans
      (by decide),
    (X3_unparsable_cents_add_75 amd64 (withTotal "abc0") 0 (by decide) (by decide)).2.2.2
      (by decide) (by decide)⟩

/-- The three answers of `getPoints`: the status 404 with the description "No
receipt found for that id" exactly when the identifier is not a key of the
map; the status 200 with the points of `calculatePoints`, the sum of the seven
contributions as an `int`, when the receipt stored under the identifier has a
total, a date and a time of at least two bytes; and no answer, the handler
panicking, when one of the three is shorter. -/
theorem X4_getPoints_lookup (impl : GoImpl) (receiptsMap : Store) (id : GoString) :
    ((getPoints impl receiptsMap id).1 =
        some ⟨404, .description (goString "No receipt found for that id")⟩ ↔
      receiptsMap id = none) ∧
    (∀ receipt : Receipt, receiptsMap id = some receipt →
      2 ≤ receipt.Total.length → 2 ≤ receipt.PurchaseDate.length →
      2 ≤ receipt.PurchaseTime.length →
      calculatePoints impl receipt = some (wrapInt impl.intSize (ruleSum impl receipt)) ∧
      (getPoints impl receiptsMap id).1 =
        some ⟨200, .points (wrapInt impl.intSize (ruleSum impl receipt))⟩) ∧
    (∀ receipt : Receipt, receiptsMap id = some receipt →
      (receipt.Total.length < 2 ∨ receipt.PurchaseDate.length < 2 ∨
        receipt.PurchaseTime.length < 2) →
      (getPoints impl receiptsMap id).1 = none) := by
  refine ⟨?_, ?_, ?_⟩
  · constructor
    · intro h
      cases hid : receiptsMap id with
      | none => rfl
      | some receipt =>
        rw [getPoints_found impl receiptsMap id receipt hid] at h
        cases hc : calculatePoints impl receipt with
        | none => rw [hc] at h; simp at h
        | some v => rw [hc] at h; simp at h
    · intro h
      exact getPoints_missing impl receiptsMap id h
  · intro receipt h h1 h2 h3
    have hc := calculatePoints_eq_ruleSum impl receipt h1 h2 h3
    refine ⟨hc, ?_⟩
    rw [getPoints_found impl receiptsMap id receipt h, hc]
    rfl
  · intro receipt h hshort
    rw [getPoints_found impl receiptsMap id receipt h,
      (calculatePoints_eq_none_iff impl receipt).2 hshort]
    rfl

/-- Submit, then query, for a receipt that the validation accepts and whose
total, date and time have at least two bytes: `processReceipts` answers with
the generated identifier and leaves the receipt stored under it, and
`getPoints` on that identifier in the map it leaves answers with the points of
`calculatePoints` for the submitted receipt. -/
theorem X5_submit_then_query (impl : GoImpl) (receiptsMap : Store) (key : GoString)
    (receipt : Receipt) (h : accepts receipt = true)
    (hTotal : 2 ≤ receipt.Total.length) (hDate : 2 ≤ receipt.PurchaseDate.length)
    (hTime : 2 ≤ receipt.PurchaseTime.length) :
    (processReceipts receiptsMap key false receipt).1 = ⟨200, .id key⟩ ∧
    (processReceipts receiptsMap key false receipt).2 key = some receipt ∧
    ∃ points : Int, calculatePoints impl receipt = some points ∧
      (getPoints impl (processReceipts receiptsMap key false receipt).2 key).1 =
        some ⟨200, .points points⟩ := by
  have hv : receiptInvalid false receipt = false := by
    simpa [accepts] using h
  rw [processReceipts_valid _ _ _ _ hv]
  refine ⟨rfl, setReceipt_same _ _ _, _, calculatePoints_eq_ruleSum impl receipt hTotal hDate hTime, ?_⟩
  rw [getPoints_found impl _ key receipt (setReceipt_same _ _ _),
    calculatePoints_eq_ruleSum impl receipt hTotal hDate hTime]
  rfl

/-- The receipt of the end-to-end scenario submitted to the empty map: the
query on the returned identifier answers with 28 points. -/
theorem X5_submit_then_query_witness :
    accepts targetReceipt = true ∧
    (processReceipts emptyStore (goString "id-1") false targetReceipt).1 =
      ⟨200, .id (goString "id-1")⟩ ∧
    (getPoints amd64 (processReceipts emptyStore (goString "id-1") false targetReceipt).2
      (goString "id-1")).1 = some ⟨200, .points 28⟩ := by
  obtain ⟨h1, _, points, hp, hg⟩ :=
    X5_submit_then_query amd64 emptyStore (goString "id-1") targetReceipt (by decide)
      (by decide) (by decide) (by decide)
  have h28 : calculatePoints amd64 targetReceipt = some 28 := by decide!
  rw [h28] at hp
  cases hp
  exact ⟨by decide, h1, hg⟩

end Fetch
